import Mathlib

/-!
Verification of the Figma-to-React node-to-markup pipeline.

Strings are modelled as lists of characters (`Str`); JavaScript string and
number operations are given executable models (`jsRound`, `jsToLowerChar`,
`splitOnLit`, the regex-replace engines below).  Numeric attributes are
modelled as exact fractions (`JSNum`: integer numerator over positive
denominator, compared and combined by cross-multiplication, never
normalised so that every operation reduces in the kernel); the only
arithmetic the code performs on them is comparison, multiplication by
constants and `Math.round`, all exact on such fractions.
-/

/-- Strings modelled as lists of characters. -/
abbrev Str := List Char

/-- An exact JS number: integer numerator over positive denominator.
Fractions are never normalised, so all operations are kernel-reducible;
two values are compared by cross-multiplication. -/
structure JSNum where
  num : ℤ
  den : ℤ
  deriving DecidableEq

/-- Numerals denote whole JS numbers. -/
instance (n : Nat) : OfNat JSNum n := ⟨⟨n, 1⟩⟩

/-- Value equality of two JS numbers. -/
def jqEq (a b : JSNum) : Bool := a.num * b.den = b.num * a.den

/-- Value order of two JS numbers (denominators are positive). -/
def jqLt (a b : JSNum) : Bool := a.num * b.den < b.num * a.den

/-- Value order (non-strict). -/
def jqLe (a b : JSNum) : Bool := a.num * b.den ≤ b.num * a.den

/-- Product of two JS numbers. -/
def jqMul (a b : JSNum) : JSNum := ⟨a.num * b.num, a.den * b.den⟩

/-- JS `Math.round`: round half up.  For `n/d` with `d > 0` this is
`⌊(2n + d) / (2d)⌋`, taken with flooring integer division. -/
def jsRound (q : JSNum) : ℤ := Int.fdiv (2 * q.num + q.den) (2 * q.den)

/-- JS truthiness of an optional number: present and nonzero. -/
def jsTruthyNum (q : Option JSNum) : Bool :=
  match q with
  | some x => !jqEq x 0
  | none => false

/-- JS truthiness of an optional string: present and nonempty. -/
def jsTruthyStr (s : Option Str) : Bool :=
  match s with
  | some x => decide (x ≠ [])
  | none => false

/-- ASCII lowercase map, as JS `toLowerCase` behaves on ASCII input. -/
def jsToLowerChar (c : Char) : Char :=
  match c with
  | 'A' => 'a' | 'B' => 'b' | 'C' => 'c' | 'D' => 'd' | 'E' => 'e'
  | 'F' => 'f' | 'G' => 'g' | 'H' => 'h' | 'I' => 'i' | 'J' => 'j'
  | 'K' => 'k' | 'L' => 'l' | 'M' => 'm' | 'N' => 'n' | 'O' => 'o'
  | 'P' => 'p' | 'Q' => 'q' | 'R' => 'r' | 'S' => 's' | 'T' => 't'
  | 'U' => 'u' | 'V' => 'v' | 'W' => 'w' | 'X' => 'x' | 'Y' => 'y'
  | 'Z' => 'z' | other => other

/-- ASCII uppercase map, as JS `toUpperCase` behaves on ASCII input. -/
def jsToUpperChar (c : Char) : Char :=
  match c with
  | 'a' => 'A' | 'b' => 'B' | 'c' => 'C' | 'd' => 'D' | 'e' => 'E'
  | 'f' => 'F' | 'g' => 'G' | 'h' => 'H' | 'i' => 'I' | 'j' => 'J'
  | 'k' => 'K' | 'l' => 'L' | 'm' => 'M' | 'n' => 'N' | 'o' => 'O'
  | 'p' => 'P' | 'q' => 'Q' | 'r' => 'R' | 's' => 'S' | 't' => 'T'
  | 'u' => 'U' | 'v' => 'V' | 'w' => 'W' | 'x' => 'X' | 'y' => 'Y'
  | 'z' => 'Z' | other => other

/-- JS `toLowerCase` on a string. -/
def jsLower (s : Str) : Str := s.map jsToLowerChar

/-- The regex class `\s` (ASCII part, the only part the inputs use). -/
def jsIsSpace (c : Char) : Bool :=
  c = ' ' || c = '\t' || c = '\n' || c = '\r' || c = '\x0b' || c = '\x0c'

/-- The regex class `\w`: letters, digits and underscore (ASCII model). -/
def jsIsWordChar (c : Char) : Bool := c.isAlphanum || c = '_'

/-- Decimal digit as a character. -/
def digitChar (d : Nat) : Char :=
  match d with
  | 0 => '0' | 1 => '1' | 2 => '2' | 3 => '3' | 4 => '4'
  | 5 => '5' | 6 => '6' | 7 => '7' | 8 => '8' | 9 => '9'
  | _ => '0'

/-- Hexadecimal digit as a character (lowercase, as JS `toString(16)`). -/
def hexDigitChar (d : Nat) : Char :=
  match d with
  | 10 => 'a' | 11 => 'b' | 12 => 'c' | 13 => 'd' | 14 => 'e' | 15 => 'f'
  | other => digitChar other

/-- Fuel-driven digit expansion in base `b` (most significant first). -/
def natToDigitsAux (b : Nat) (dig : Nat → Char) : Nat → Nat → Str
  | 0, _ => []
  | fuel + 1, n =>
    if n < b then [dig n]
    else natToDigitsAux b dig fuel (n / b) ++ [dig (n % b)]

/-- Decimal representation of a natural number, as JS `toString()`. -/
def natToStr (n : Nat) : Str := natToDigitsAux 10 digitChar (n + 1) n

/-- Decimal representation of an integer, as JS `toString()`. -/
def intToStr (z : ℤ) : Str :=
  if z < 0 then '-' :: natToStr z.natAbs else natToStr z.natAbs

/-- Hexadecimal representation of an integer, as JS `toString(16)`. -/
def intToHexStr (z : ℤ) : Str :=
  if z < 0 then '-' :: natToDigitsAux 16 hexDigitChar (z.natAbs + 1) z.natAbs
  else natToDigitsAux 16 hexDigitChar (z.natAbs + 1) z.natAbs

/-- JS `padStart(2, "0")`. -/
def padStart2 (s : Str) : Str :=
  if s.length < 2 then List.replicate (2 - s.length) '0' ++ s else s

/-- Split a string at the first occurrence of the literal `pat`,
returning the parts before and after it (`none` when `pat` never occurs). -/
def splitOnLit (pat : Str) : Str → Option (Str × Str)
  | [] => if pat.isEmpty then some ([], []) else none
  | c :: t =>
    if pat.isPrefixOf (c :: t) then some ([], (c :: t).drop pat.length)
    else
      match splitOnLit pat t with
      | some (pre, post) => some (c :: pre, post)
      | none => none

/-- JS `includes`: whether the literal `pat` occurs in `s`. -/
def containsLit (pat s : Str) : Bool := (splitOnLit pat s).isSome

/-- Number of (non-overlapping, leftmost) occurrences of `pat` in `s`,
driven by fuel so that it evaluates in the kernel. -/
def countLitAux (pat : Str) : Nat → Str → Nat
  | 0, _ => 0
  | fuel + 1, s =>
    match splitOnLit pat s with
    | some (_, post) => 1 + countLitAux pat fuel post
    | none => 0

/-- Number of occurrences of a nonempty literal `pat` in `s`. -/
def countLit (pat s : Str) : Nat := countLitAux pat (s.length + 1) s

/-- JS `replace` with a plain-string pattern: replace the first occurrence. -/
def replaceFirstLit (pat repl s : Str) : Str :=
  match splitOnLit pat s with
  | some (pre, post) => pre ++ repl ++ post
  | none => s

/-!
Regex-replace engines.  The source rewrites markup with a handful of regex
shapes; each shape gets an executable engine with JS semantics: scan left to
right, non-overlapping matches, continue after each match.  The engines are
fuel-driven (fuel = length of the input suffices) so they evaluate in the
kernel.
-/

/-- Engine for `/open([^stop]*)stop/g` (or `[^stop]+` when `minOne`), with
replacement `repl capture`.  When the opening literal matches but no `stop`
character follows anywhere, the regex cannot match there or later, so the
remainder is kept unchanged — exactly the JS behaviour. -/
def replaceTagAux (opn : Str) (stop : Char) (minOne : Bool)
    (repl : Str → Str) : Nat → Str → Str
  | 0, s => s
  | fuel + 1, s =>
    match splitOnLit opn s with
    | none => s
    | some (pre, rest) =>
      let cap := rest.takeWhile (fun c => c ≠ stop)
      match rest.dropWhile (fun c => c ≠ stop) with
      | [] => s
      | _ :: t =>
        if minOne && cap.isEmpty then
          pre ++ opn ++ replaceTagAux opn stop minOne repl fuel rest
        else
          pre ++ repl cap ++ replaceTagAux opn stop minOne repl fuel t

/-- `/open([^stop]*)stop/g` with replacement `repl capture`. -/
def replaceTag (opn : Str) (stop : Char) (minOne : Bool)
    (repl : Str → Str) (s : Str) : Str :=
  replaceTagAux opn stop minOne repl (s.length + 1) s

/-- Find the earliest `"</div>"` not preceded by a newline (the lazy
`(.*?)<\/div>` with `.` not matching `\n`): returns the body before it and
the remainder after it. -/
def findDivClose : Str → Option (Str × Str)
  | [] => none
  | c :: t =>
    if ("</div>".data).isPrefixOf (c :: t) then some ([], (c :: t).drop 6)
    else if c = '\n' then none
    else
      match findDivClose t with
      | some (body, post) => some (c :: body, post)
      | none => none

/-- Engine for `/<div([^>]*)>(.*?)<\/div>/g` with replacement
`repl capture1 capture2`.  When a `<div` has no closing `>` anywhere the
scan stops (no later match is possible); when it has no same-line `</div>`
the match fails there and scanning resumes after that `<div`. -/
def replaceDivPairAux (repl : Str → Str → Str) : Nat → Str → Str
  | 0, s => s
  | fuel + 1, s =>
    match splitOnLit ("<div".data) s with
    | none => s
    | some (pre, rest) =>
      let cap1 := rest.takeWhile (fun c => c ≠ '>')
      match rest.dropWhile (fun c => c ≠ '>') with
      | [] => s
      | _ :: t =>
        match findDivClose t with
        | some (body, post) =>
          pre ++ repl cap1 body ++ replaceDivPairAux repl fuel post
        | none => pre ++ "<div".data ++ replaceDivPairAux repl fuel rest

/-- `/<div([^>]*)>(.*?)<\/div>/g` with replacement `repl cap1 cap2`. -/
def replaceDivPair (repl : Str → Str → Str) (s : Str) : Str :=
  replaceDivPairAux repl (s.length + 1) s

/-- Case-insensitive match of a literal against the start of a string:
returns the remainder on success. -/
def ciPrefixDrop (pat s : Str) : Option Str :=
  if (jsLower pat).isPrefixOf (jsLower s) then some (s.drop pat.length)
  else none

/-- Global case-insensitive deletion of the first-matching alternative at
each position (JS `replace(/a|b|.../gi, "")`): at every index the
alternatives are tried in order; on a match the engine continues after the
matched text, otherwise it keeps the character and advances. -/
def replaceAltsAux (alts : List Str) : Nat → Str → Str
  | 0, s => s
  | fuel + 1, s =>
    match s with
    | [] => []
    | c :: t =>
      match alts.firstM (fun a => ciPrefixDrop a s) with
      | some rest => replaceAltsAux alts fuel rest
      | none => c :: replaceAltsAux alts fuel t

/-- JS `s.replace(/alt1|alt2|.../gi, "")`. -/
def replaceAltsCI (alts : List Str) (s : Str) : Str :=
  replaceAltsAux alts (s.length + 1) s

/-- JS `trim()`. -/
def jsTrim (s : Str) : Str :=
  ((s.dropWhile jsIsSpace).reverse.dropWhile jsIsSpace).reverse

/-- Collapse every whitespace run to a single dash
(JS `replace(/\s+/g, "-")`). -/
def collapseWsToDash : Str → Str
  | [] => []
  | [c] => if jsIsSpace c then ['-'] else [c]
  | c :: d :: t =>
    if jsIsSpace c then
      if jsIsSpace d then collapseWsToDash (d :: t)
      else '-' :: collapseWsToDash (d :: t)
    else c :: collapseWsToDash (d :: t)

/-- JS `split(/[sep]+/)`: split on runs of separator characters, keeping
the empty segments JS produces at the ends. -/
def jsSplitSeps (isSep : Char → Bool) : Str → List Str
  | [] => [[]]
  | c :: t =>
    let r := jsSplitSeps isSep t
    if isSep c then
      match t with
      | [] => [] :: r
      | d :: _ => if isSep d then r else [] :: r
    else
      match r with
      | [] => [[c]]
      | seg :: rest => (c :: seg) :: rest

/-!
Data model (`FigmaNode` and its visual attributes), from
`figma-client.ts` / the shapes the pipeline reads.  Optional attributes are
`Option`s; absent means the JS property is `undefined`.
-/

structure FigmaColor where
  r : JSNum
  g : JSNum
  b : JSNum
  deriving DecidableEq

structure FigmaPaint where
  type : Str
  color : FigmaColor
  opacity : Option JSNum
  deriving DecidableEq

structure FigmaTextStyle where
  fontSize : Option JSNum
  fontWeight : Option JSNum
  lineHeight : Option JSNum
  letterSpacing : Option JSNum
  deriving DecidableEq

structure FigmaBox where
  width : JSNum
  height : JSNum
  deriving DecidableEq

structure FigmaOffset where
  x : JSNum
  y : JSNum
  deriving DecidableEq

structure FigmaEffect where
  type : Str
  offset : FigmaOffset
  radius : JSNum
  deriving DecidableEq

structure FigmaNode where
  id : Str
  name : Str
  type : Str
  characters : Option Str
  children : List FigmaNode
  fills : Option (List FigmaPaint)
  strokes : Option (List FigmaPaint)
  strokeWeight : Option JSNum
  cornerRadius : Option JSNum
  effects : Option (List FigmaEffect)
  style : Option FigmaTextStyle
  absoluteBoundingBox : Option FigmaBox

/-!
Style Mapper: `figma-tailwind-converter` (`rgbToHex`, `mapToTailwindColor`,
`mapFontSizeToTailwind`, `mapFontWeightToTailwind`, `mapToTailwindSize`,
`convertFigmaStylesToTailwind`).
-/

/-- `rgbToHex`: `"#" + [r,g,b].map(x => round(x).toString(16).padStart(2,"0")).join("")`. -/
def rgbToHex (r g b : JSNum) : Str :=
  '#' :: (padStart2 (intToHexStr (jsRound r)) ++ padStart2 (intToHexStr (jsRound g))
    ++ padStart2 (intToHexStr (jsRound b)))

/-- The fixed Tailwind palette, in declaration order. -/
def tailwindColors : List (Str × Str) :=
  [("#000000".data, "text-black".data),
   ("#ffffff".data, "text-white".data),
   ("#ef4444".data, "text-red-500".data),
   ("#3b82f6".data, "text-blue-500".data),
   ("#10b981".data, "text-green-500".data),
   ("#f59e0b".data, "text-yellow-500".data),
   ("#6366f1".data, "text-indigo-500".data),
   ("#8b5cf6".data, "text-purple-500".data),
   ("#ec4899".data, "text-pink-500".data),
   ("#6b7280".data, "text-gray-500".data)]

/-- Value of one hexadecimal digit. -/
def hexDigitVal (c : Char) : Option Nat :=
  if '0' ≤ c ∧ c ≤ '9' then some (c.toNat - '0'.toNat)
  else if 'a' ≤ c ∧ c ≤ 'f' then some (c.toNat - 'a'.toNat + 10)
  else if 'A' ≤ c ∧ c ≤ 'F' then some (c.toNat - 'A'.toNat + 10)
  else none

/-- Leading hexadecimal digits of a string as a number (`none` if there are
no leading digits). -/
def hexDigitsVal : Str → Option Nat
  | [] => none
  | c :: t =>
    match hexDigitVal c with
    | none => none
    | some d =>
      match hexDigitsVal t with
      | none => some d
      | some rest => some (d * 16 ^ t.length + rest)

/-- Awkward but faithful `parseInt(s, 16)`: optional sign, then the leading
run of hex digits; `none` models `NaN`. -/
def jsParseIntHex (s : Str) : Option ℤ :=
  match s with
  | '-' :: t => (leadHex t).map (fun n => -(n : ℤ))
  | '+' :: t => (leadHex t).map (fun n => (n : ℤ))
  | t => (leadHex t).map (fun n => (n : ℤ))
where
  leadHex (t : Str) : Option Nat := hexDigitsVal (t.takeWhile (fun c => (hexDigitVal c).isSome))

/-- JS `slice(a, b)` on strings. -/
def jsSlice (s : Str) (a b : Nat) : Str := (s.drop a).take (b - a)

/-- Squared RGB distance, `none` when any channel is `NaN`. -/
def distSq (r1 g1 b1 r2 g2 b2 : Option ℤ) : Option ℤ :=
  match r1, g1, b1, r2, g2, b2 with
  | some x1, some y1, some z1, some x2, some y2, some z2 =>
    some ((x1 - x2) ^ 2 + (y1 - y2) ^ 2 + (z1 - z2) ^ 2)
  | _, _, _, _, _, _ => none

/-- `distance < minDistance` with `none` standing for `NaN` on the left and
for the initial `Number.MAX_VALUE` on the right.  The source compares
Euclidean distances; comparing their squares is equivalent (square root is
strictly monotone on nonnegatives), and `Number.MAX_VALUE` exceeds every
reachable distance. -/
def distLt (d m : Option ℤ) : Bool :=
  match d with
  | none => false
  | some x =>
    match m with
    | none => true
    | some y => decide (x < y)

/-- Loop body of `mapToTailwindColor`: keep the palette entry whenever its
distance beats the minimum so far. -/
def colorStep (r1 g1 b1 : Option ℤ) (acc : Option ℤ × Str) (entry : Str × Str) :
    Option ℤ × Str :=
  let r2 := jsParseIntHex (jsSlice entry.1 1 3)
  let g2 := jsParseIntHex (jsSlice entry.1 3 5)
  let b2 := jsParseIntHex (jsSlice entry.1 5 7)
  let d := distSq r1 g1 b1 r2 g2 b2
  if distLt d acc.1 then (d, entry.2) else acc

/-- `mapToTailwindColor`: nearest palette entry by RGB distance, ties kept
with the earlier entry, starting from `"text-black"`. -/
def mapToTailwindColor (hexColor : Str) : Str :=
  let r1 := jsParseIntHex (jsSlice hexColor 1 3)
  let g1 := jsParseIntHex (jsSlice hexColor 3 5)
  let b1 := jsParseIntHex (jsSlice hexColor 5 7)
  (tailwindColors.foldl (colorStep r1 g1 b1) ((none : Option ℤ), "text-black".data)).2

/-- `mapFontSizeToTailwind`. -/
def mapFontSizeToTailwind (fontSize : JSNum) : Str :=
  if jqLe fontSize 12 then "text-xs".data
  else if jqLe fontSize 14 then "text-sm".data
  else if jqLe fontSize 16 then "text-base".data
  else if jqLe fontSize 18 then "text-lg".data
  else if jqLe fontSize 20 then "text-xl".data
  else if jqLe fontSize 24 then "text-2xl".data
  else if jqLe fontSize 30 then "text-3xl".data
  else if jqLe fontSize 36 then "text-4xl".data
  else if jqLe fontSize 48 then "text-5xl".data
  else "text-6xl".data

/-- `mapFontWeightToTailwind`. -/
def mapFontWeightToTailwind (fontWeight : JSNum) : Str :=
  if jqLt fontWeight 400 then "font-light".data
  else if jqLt fontWeight 500 then "font-normal".data
  else if jqLt fontWeight 600 then "font-medium".data
  else if jqLt fontWeight 700 then "font-semibold".data
  else "font-bold".data

/-- `mapToTailwindSize`. -/
def mapToTailwindSize (size : JSNum) : Str :=
  if jqLe size 4 then "1".data
  else if jqLe size 8 then "2".data
  else if jqLe size 12 then "3".data
  else if jqLe size 16 then "4".data
  else if jqLe size 20 then "5".data
  else if jqLe size 24 then "6".data
  else if jqLe size 32 then "8".data
  else if jqLe size 40 then "10".data
  else if jqLe size 48 then "12".data
  else if jqLe size 64 then "16".data
  else if jqLe size 80 then "20".data
  else if jqLe size 96 then "24".data
  else if jqLe size 128 then "32".data
  else if jqLe size 160 then "40".data
  else if jqLe size 192 then "48".data
  else if jqLe size 256 then "64".data
  else if jqLe size 320 then "80".data
  else if jqLe size 384 then "96".data
  else "full".data

/-- Fill-colour section of `convertFigmaStylesToTailwind` (source: the
`figmaStyles.fills` block): first fill, solid only; an opacity token is
pushed when `fill.opacity` is truthy (present and nonzero) and `< 1`. -/
def fillTokens (n : FigmaNode) : List Str :=
  match n.fills with
  | some (fill :: _) =>
    if fill.type = "SOLID".data then
      let hexColor := rgbToHex (jqMul fill.color.r 255) (jqMul fill.color.g 255) (jqMul fill.color.b 255)
      mapToTailwindColor hexColor ::
        (match fill.opacity with
         | some o =>
           if !jqEq o 0 && jqLt o 1 then
             ["opacity-".data ++ intToStr (jsRound (jqMul o 100))]
           else []
         | none => [])
    else []
  | _ => []

/-- The line-height breakpoint chain of the typography section. -/
def mapLineHeightToTailwind (lh : JSNum) : Str :=
  if jqLe lh 1 then "leading-none".data
  else if jqLe lh ⟨5, 4⟩ then "leading-tight".data
  else if jqLe lh ⟨3, 2⟩ then "leading-normal".data
  else if jqLe lh ⟨7, 4⟩ then "leading-relaxed".data
  else "leading-loose".data

/-- The letter-spacing breakpoint chain of the typography section. -/
def mapLetterSpacingToTailwind (ls : JSNum) : Str :=
  if jqLe ls ⟨-1, 20⟩ then "tracking-tighter".data
  else if jqLe ls 0 then "tracking-tight".data
  else if jqLe ls ⟨1, 20⟩ then "tracking-normal".data
  else if jqLe ls ⟨1, 10⟩ then "tracking-wide".data
  else "tracking-wider".data

/-- The corner-radius breakpoint chain. -/
def mapCornerRadiusToTailwind (cr : JSNum) : Str :=
  if jqLe cr 2 then "rounded-sm".data
  else if jqLe cr 4 then "rounded".data
  else if jqLe cr 6 then "rounded-md".data
  else if jqLe cr 8 then "rounded-lg".data
  else if jqLe cr 12 then "rounded-xl".data
  else if jqLe cr 16 then "rounded-2xl".data
  else if jqLe cr 24 then "rounded-3xl".data
  else "rounded-full".data

/-- The stroke-weight breakpoint chain. -/
def mapStrokeWeightToTailwind (sw : JSNum) : Str :=
  if jqLe sw 1 then "border".data
  else if jqLe sw 2 then "border-2".data
  else if jqLe sw 4 then "border-4".data
  else "border-8".data

/-- The shadow-tier chain (tightest tier first). -/
def mapShadowToTailwind (e : FigmaEffect) : Str :=
  if jqEq e.offset.x 0 && jqEq e.offset.y 1 && jqLe e.radius 2 then "shadow-sm".data
  else if jqLe e.offset.y 3 && jqLe e.radius 4 then "shadow".data
  else if jqLe e.offset.y 8 && jqLe e.radius 10 then "shadow-md".data
  else if jqLe e.offset.y 15 && jqLe e.radius 15 then "shadow-lg".data
  else "shadow-xl".data

/-- Typography section (the `figmaStyles.style` block); each sub-attribute
is guarded by JS truthiness. -/
def styleTokens (n : FigmaNode) : List Str :=
  match n.style with
  | none => []
  | some st =>
    (match st.fontSize with
     | some fs => if !jqEq fs 0 then [mapFontSizeToTailwind fs] else []
     | none => []) ++
    (match st.fontWeight with
     | some fw => if !jqEq fw 0 then [mapFontWeightToTailwind fw] else []
     | none => []) ++
    (match st.lineHeight with
     | some lh => if !jqEq lh 0 then [mapLineHeightToTailwind lh] else []
     | none => []) ++
    (match st.letterSpacing with
     | some ls => if !jqEq ls 0 then [mapLetterSpacingToTailwind ls] else []
     | none => [])

/-- Layout section (the `absoluteBoundingBox` block). -/
def sizeTokens (n : FigmaNode) : List Str :=
  match n.absoluteBoundingBox with
  | none => []
  | some box =>
    ["w-".data ++ mapToTailwindSize box.width, "h-".data ++ mapToTailwindSize box.height]

/-- Border-radius section (the `cornerRadius` block, truthiness-guarded). -/
def radiusTokens (n : FigmaNode) : List Str :=
  match n.cornerRadius with
  | none => []
  | some cr =>
    if !jqEq cr 0 then [mapCornerRadiusToTailwind cr] else []

/-- Border section (the `strokes` block): first stroke, solid only; the
text-colour class has its `"text-"` replaced by `"border-"`. -/
def borderTokens (n : FigmaNode) : List Str :=
  match n.strokes with
  | some (stroke :: _) =>
    if stroke.type = "SOLID".data then
      let hexColor := rgbToHex (jqMul stroke.color.r 255) (jqMul stroke.color.g 255) (jqMul stroke.color.b 255)
      replaceFirstLit ("text-".data) ("border-".data) (mapToTailwindColor hexColor) ::
        (match n.strokeWeight with
         | some sw => if !jqEq sw 0 then [mapStrokeWeightToTailwind sw] else []
         | none => [])
    else []
  | _ => []

/-- Shadow section (the `effects` block): the first `DROP_SHADOW` effect,
mapped by the nested offset/radius thresholds. -/
def shadowTokens (n : FigmaNode) : List Str :=
  match n.effects with
  | none => []
  | some effs =>
    match effs.find? (fun e => e.type = "DROP_SHADOW".data) with
    | none => []
    | some e => [mapShadowToTailwind e]

/-- `convertFigmaStylesToTailwind`: the sections above pushed in source
order (fills, typography, layout, radius, borders, shadows). -/
def convertFigmaStylesToTailwind (n : FigmaNode) : List Str :=
  fillTokens n ++ styleTokens n ++ sizeTokens n ++ radiusTokens n ++ borderTokens n ++ shadowTokens n

/-!
Accessibility Rewriter: `accessibility.ts` (`determineLikelyHeadingLevel`,
`isLikelyButton`, `isLikelyImage`, `isLikelyInputField`, `generateAltText`,
`enhanceWithAccessibility`).
-/

/-- `determineLikelyHeadingLevel`: h2 without style information, otherwise
fixed font-size breakpoints (an undefined `fontSize` fails every `>=`). -/
def determineLikelyHeadingLevel (n : FigmaNode) : Nat :=
  match n.style with
  | none => 2
  | some st =>
    match st.fontSize with
    | none => 6
    | some fs =>
      if jqLe 32 fs then 1
      else if jqLe 24 fs then 2
      else if jqLe 20 fs then 3
      else if jqLe 18 fs then 4
      else if jqLe 16 fs then 5
      else 6

/-- The name rule: the lowercased node name contains `"button"` or `"btn"`. -/
def nameHasButton (name : Str) : Bool :=
  containsLit ("button".data) (jsLower name) || containsLit ("btn".data) (jsLower name)

/-- `isLikelyButton`: the name rule, or else a truthy positive corner
radius together with a nonempty `fills` array. -/
def isLikelyButton (n : FigmaNode) : Bool :=
  if nameHasButton n.name then true
  else if jsTruthyNum n.cornerRadius &&
      (match n.cornerRadius with | some r => jqLt 0 r | none => false) then
    (match n.fills with
     | some fs => !fs.isEmpty
     | none => false)
  else false

/-- `isLikelyImage`: IMAGE type, image-ish name, or an IMAGE fill. -/
def isLikelyImage (n : FigmaNode) : Bool :=
  if n.type = "IMAGE".data then true
  else if containsLit ("image".data) (jsLower n.name)
      || containsLit ("img".data) (jsLower n.name)
      || containsLit ("icon".data) (jsLower n.name) then true
  else
    match n.fills with
    | some fs => fs.any (fun f => f.type = "IMAGE".data)
    | none => false

/-- `isLikelyInputField`: name contains an input-related keyword. -/
def isLikelyInputField (n : FigmaNode) : Bool :=
  containsLit ("input".data) (jsLower n.name)
    || containsLit ("field".data) (jsLower n.name)
    || containsLit ("text field".data) (jsLower n.name)
    || containsLit ("form field".data) (jsLower n.name)

/-- The filler alternatives `img|image|icon|pic|picture`, in regex order. -/
def altFillers : List Str :=
  ["img".data, "image".data, "icon".data, "pic".data, "picture".data]

/-- The regex class `[-_\s]`. -/
def isDashSep (c : Char) : Bool := c = '-' || c = '_' || jsIsSpace c

/-- `replace(/^(img|image|icon|pic|picture)[-_\s]*/i, "")`: anchored at the
start, the first alternative that matches wins (the trailing `[-_\s]*`
always succeeds, so the regex never backtracks into a later one). -/
def stripAltStart (s : Str) : Str :=
  match altFillers.firstM (fun a => ciPrefixDrop a s) with
  | some rest => rest.dropWhile isDashSep
  | none => s

/-- Whether `[-_\s]*(img|image|icon|pic|picture)$` matches starting exactly
here: the maximal separator run followed by a filler ending the string
(a shorter run would leave a separator where the filler must start). -/
def altSuffixHere (s : Str) : Bool :=
  altFillers.any (fun a => jsLower (s.dropWhile isDashSep) = a)

/-- `replace(/[-_\s]*(img|image|icon|pic|picture)$/i, "")`: delete from the
leftmost position where the suffix pattern matches (non-global `replace`
rewrites only the first, i.e. leftmost, match). -/
def stripAltEnd : Str → Str
  | [] => []
  | c :: t =>
    if altSuffixHere (c :: t) then []
    else c :: stripAltEnd t

/-- `generateAltText`: strip leading and trailing image-filler words from
the name; fall back to `"Image"` when the rest is empty or a filler. -/
def generateAltText (n : FigmaNode) : Str :=
  let a1 := stripAltStart n.name
  let a2 := stripAltEnd a1
  if a2 = [] ∨ altFillers.any (fun a => jsLower a2 = a) then "Image".data else a2

/-- Pass 1 (headings): text nodes with `fontSize >= 16` get every
`<div ...>...</div>` rewritten to the inferred heading element. -/
def headingPass (n : FigmaNode) (s : Str) : Str :=
  if n.type = "TEXT".data || jsTruthyStr n.characters then
    if (match n.style with
        | some st =>
          (match st.fontSize with
           | some fs => jqLe 16 fs
           | none => false)
        | none => false) then
      let lvl := natToStr (determineLikelyHeadingLevel n)
      replaceDivPair
        (fun c1 c2 => "<h".data ++ lvl ++ c1 ++ ">".data ++ c2 ++ "</h".data ++ lvl ++ ">".data) s
    else s
  else s

/-- Pass 2 (images): insert an alt attribute on `<img`/`<Image` tags, else
mark a `<div` as a labelled image proxy. -/
def imagePass (n : FigmaNode) (s : Str) : Str :=
  if isLikelyImage n then
    let altText := generateAltText n
    if containsLit ("<img".data) s then
      replaceTag ("<img".data) '>' false
        (fun cap => "<img".data ++ cap ++ " alt=\"".data ++ altText ++ "\">".data) s
    else if containsLit ("<Image".data) s then
      replaceTag ("<Image".data) '>' false
        (fun cap => "<Image".data ++ cap ++ " alt=\"".data ++ altText ++ "\">".data) s
    else
      replaceTag ("<div".data) '>' false
        (fun cap => "<div".data ++ cap ++ " role=\"img\" aria-label=\"".data ++ altText ++ "\">".data) s
  else s

/-- Pass 3 (buttons): when no dedicated `<button` is present, make the
`<div` wrapper an interactive role with keyboard activation; the following
`onClick={...}` rewrite replaces each match with itself. -/
def buttonPass (n : FigmaNode) (s : Str) : Str :=
  if isLikelyButton n then
    if containsLit ("<button".data) s then s
    else
      let s1 := replaceTag ("<div".data) '>' false
        (fun cap => "<div".data ++ cap ++
          " role=\"button\" tabIndex=\x7b0\x7d onKeyDown=\x7b(e) => e.key === \"Enter\" && onClick && onClick(e)\x7d>".data) s
      replaceTag ("onClick=\x7b".data) '\x7d' true
        (fun cap => "onClick=\x7b".data ++ cap ++ "\x7d".data) s1
  else s

/-- The filler alternatives `input|field|text field|form field`. -/
def inputFillers : List Str :=
  ["input".data, "field".data, "text field".data, "form field".data]

/-- Pass 4 (inputs): wrap the input (or convert the `<div` wrapper into
one) in an associated label with a stable identifier. -/
def inputPass (n : FigmaNode) (s : Str) : Str :=
  if isLikelyInputField n then
    let inputId := "input-".data ++ n.id.map (fun c => if c.isAlphanum then c else '-')
    let labelText0 := jsTrim (replaceAltsCI inputFillers n.name)
    let labelText := if labelText0 = [] then "Input".data else labelText0
    if containsLit ("<input".data) s then
      replaceTag ("<input".data) '>' false
        (fun cap => "<label htmlFor=\"".data ++ inputId ++ "\">".data ++ labelText ++
          "<input".data ++ cap ++ " id=\"".data ++ inputId ++ "\" aria-label=\"".data ++
          labelText ++ "\">".data ++ "</label>".data) s
    else
      replaceDivPair
        (fun c1 _ => "<label htmlFor=\"".data ++ inputId ++ "\">".data ++ labelText ++
          "<input".data ++ c1 ++ " id=\"".data ++ inputId ++ "\" aria-label=\"".data ++
          labelText ++ "\" /></label>".data) s
  else s

/-- `enhanceWithAccessibility`: the four passes in source order. -/
def enhanceWithAccessibility (jsx : Str) (n : FigmaNode) : Str :=
  inputPass n (buttonPass n (imagePass n (headingPass n jsx)))

/-!
Tree-to-Markup Translator and Component Assembler:
`component-generator.ts` (`toPropName`, `extractProps`, `figmaNodeToJSX`,
`generateReactComponent`).
-/

/-- `replace(/[^\w\s-]/g, "")`. -/
def sanitizeName (name : Str) : Str :=
  name.filter (fun c => jsIsWordChar c || jsIsSpace c || c = '-')

/-- `word.charAt(0).toUpperCase() + word.slice(1).toLowerCase()` (the empty
word stays empty, as `charAt(0)` of `""` is `""`). -/
def capWord : Str → Str
  | [] => []
  | c :: t => jsToUpperChar c :: t.map jsToLowerChar

/-- `toPropName`: strip invalid characters, split on `[-_\s]+`, lowercase
the first part and capitalise the rest (camelCase). -/
def toPropName (name : Str) : Str :=
  match jsSplitSeps isDashSep (sanitizeName name) with
  | [] => []
  | p :: ps => p.map jsToLowerChar ++ (ps.map capWord).flatten

/-- One escaped character of `JSON.stringify` output. -/
def jsonEscapeChar (c : Char) : Str :=
  if c = '"' then ['\\', '"']
  else if c = '\\' then ['\\', '\\']
  else if c = '\n' then ['\\', 'n']
  else if c = '\t' then ['\\', 't']
  else if c = '\r' then ['\\', 'r']
  else if c = '\x08' then ['\\', 'b']
  else if c = '\x0c' then ['\\', 'f']
  else if c.toNat < 32 then
    "\\u00".data ++ padStart2 (natToDigitsAux 16 hexDigitChar (c.toNat + 1) c.toNat)
  else [c]

/-- `JSON.stringify` on a string. -/
def jsonStringify (s : Str) : Str :=
  '"' :: (s.map jsonEscapeChar).flatten ++ ['"']

/-- A potential React prop extracted from a node. -/
structure PropDef where
  name : Str
  type : Str
  defaultValue : Option Str
  description : Option Str
  deriving DecidableEq

/-- The container-keyword rule of `extractProps`. -/
def nameHasContainerKeyword (name : Str) : Bool :=
  containsLit ("container".data) (jsLower name)
    || containsLit ("wrapper".data) (jsLower name)
    || containsLit ("layout".data) (jsLower name)
    || containsLit ("section".data) (jsLower name)

/-- `extractProps`: text content, variant, onClick, children and className
props, in source order. -/
def extractProps (n : FigmaNode) : List PropDef :=
  (if n.type = "TEXT".data ∧ jsTruthyStr n.characters then
    let propName0 := toPropName n.name
    let propName := if propName0 = [] then "text".data else propName0
    [⟨propName, "string".data, some (jsonStringify (n.characters.getD [])),
      some ("Text content for ".data ++ n.name)⟩]
   else []) ++
  (if containsLit ("variant".data) (jsLower n.name) then
    [⟨"variant".data,
      "\x27primary\x27 | \x27secondary\x27 | \x27outline\x27 | \x27text\x27".data,
      some ("\x27primary\x27".data), some ("Visual variant of the component".data)⟩]
   else []) ++
  (if nameHasButton n.name then
    [⟨"onClick".data, "() => void".data, none,
      some ("Function called when button is clicked".data)⟩]
   else []) ++
  (if !n.children.isEmpty && nameHasContainerKeyword n.name then
    [⟨"children".data, "React.ReactNode".data, none,
      some ("Child elements to render inside the component".data)⟩]
   else []) ++
  [⟨"className".data, "string".data, none,
    some ("Additional CSS classes to apply".data)⟩]

/-- Name of the first extracted prop (`textProps[0]?.name`; empty when
there is none). -/
def firstPropName (props : List PropDef) : Str :=
  match props.head? with
  | some p => p.name
  | none => []

/-- The binding name of the TEXT markup (`textProps[0]?.name || "text"`). -/
def textBindName (props : List PropDef) : Str :=
  if firstPropName props = [] then "text".data else firstPropName props

/-- One node's translation: markup, imports and props. -/
structure RCParts where
  jsx : Str
  imports : List Str
  props : List PropDef

/-- `'  '.repeat(k)`. -/
def indentStr (k : Nat) : Str := List.replicate (2 * k) ' '

/-- `name.toLowerCase().replace(/\s+/g, "-")`. -/
def nameDashLower (name : Str) : Str := collapseWsToDash (jsLower name)

/-- The child-processing loop of the container case: each child is
translated at `lvl` (= parent level + 1) and its markup appended after a
newline and indentation; imports and props are concatenated in order. -/
def childrenAgg (rec : FigmaNode → Nat → RCParts) (lvl : Nat) :
    List FigmaNode → Str × List Str × List PropDef
  | [] => ([], [], [])
  | c :: cs =>
    let r := rec c lvl
    let rest := childrenAgg rec lvl cs
    ("\n".data ++ indentStr lvl ++ r.jsx ++ rest.1, r.imports ++ rest.2.1, r.props ++ rest.2.2)

/-- Whether a type tag is one of the container cases. -/
def isContainerType (t : Str) : Bool :=
  t = "COMPONENT".data || t = "INSTANCE".data || t = "FRAME".data || t = "GROUP".data

/-- Whether a type tag is one of the plain shape cases. -/
def isShapeType (t : Str) : Bool :=
  t = "RECTANGLE".data || t = "ELLIPSE".data || t = "POLYGON".data
    || t = "STAR".data || t = "VECTOR".data || t = "LINE".data

/-- One unfolding of `figmaNodeToJSX` (the type switch), parameterised by
the recursive call used on children. -/
def jsxStep (rec : FigmaNode → Nat → RCParts) (n : FigmaNode) (level : Nat) : RCParts :=
  if n.type = "TEXT".data then
    let tailwindClasses := convertFigmaStylesToTailwind n
    let textProps := extractProps n
    ⟨"<p className=\"".data ++ List.intercalate (" ".data) tailwindClasses
      ++ "\">\x7b".data ++ textBindName textProps ++ "\x7d</p>".data, [], textProps⟩
  else if isShapeType n.type then
    let shapeClasses := convertFigmaStylesToTailwind n
    ⟨"<div className=\"".data ++ List.intercalate (" ".data) shapeClasses ++ " ".data
      ++ jsLower n.type ++ " ".data ++ nameDashLower n.name ++ "\"></div>".data, [], []⟩
  else if isContainerType n.type then
    let containerClasses := convertFigmaStylesToTailwind n
    let containerProps := extractProps n
    let agg := childrenAgg rec (level + 1) n.children
    let childrenJSX := if n.children.isEmpty then [] else agg.1 ++ "\n".data ++ indentStr level
    let imports := agg.2.1
    let allProps := agg.2.2
    if nameHasButton n.name then
      ⟨"<button \n  className=\"".data ++ List.intercalate (" ".data) containerClasses
        ++ " ".data ++ nameDashLower n.name ++ "\"\n  onClick=\x7bonClick\x7d\n>".data
        ++ childrenJSX ++ "</button>".data, imports, containerProps ++ allProps⟩
    else
      let hasChildrenProp := containerProps.any (fun p => p.name = "children".data)
      ⟨"<div \n  className=\"".data ++ List.intercalate (" ".data) containerClasses
        ++ " ".data ++ nameDashLower n.name ++ "\"\n>".data
        ++ (if hasChildrenProp then "\x7bchildren\x7d".data else childrenJSX)
        ++ "</div>".data, imports,
        containerProps ++ (if hasChildrenProp then [] else allProps)⟩
  else if n.type = "IMAGE".data then
    let imageClasses := convertFigmaStylesToTailwind n
    ⟨"<img \n  src=\"".data ++ nameDashLower n.name ++ ".png\" \n  className=\"".data
      ++ List.intercalate (" ".data) imageClasses ++ "\" \n  alt=\"".data ++ n.name
      ++ "\"\n/>".data, [],
      [⟨"src".data, "string".data, none, some ("Image source URL".data)⟩]⟩
  else
    ⟨"<div className=\"".data ++ nameDashLower n.name ++ "\"></div>".data, [], []⟩

mutual

/-- Number of nodes in a tree (used as recursion fuel). -/
def nodeSize : FigmaNode → Nat
  | FigmaNode.mk _ _ _ _ cs _ _ _ _ _ _ _ => 1 + nodesSize cs

/-- Number of nodes in a forest. -/
def nodesSize : List FigmaNode → Nat
  | [] => 0
  | c :: cs => nodeSize c + nodesSize cs

end

/-- Fuel-driven recursion for `figmaNodeToJSX` (`nodeSize` fuel always
suffices; fuel keeps the definition kernel-reducible). -/
def jsxFuel : Nat → FigmaNode → Nat → RCParts
  | 0, _, _ => ⟨[], [], []⟩
  | fuel + 1, n, level => jsxStep (fun c l => jsxFuel fuel c l) n level

/-- `figmaNodeToJSX`. -/
def figmaNodeToJSX (n : FigmaNode) (level : Nat) : RCParts :=
  jsxFuel (nodeSize n) n level

/-- `filter((prop, index, self) => index === self.findIndex(p => p.name === prop.name))`:
keep the first occurrence of each prop name. -/
def dedupeProps (props : List PropDef) : List PropDef :=
  props.enum.filterMap (fun ip =>
    if props.findIdx? (fun q => q.name == ip.2.name) = some ip.1 then some ip.2 else none)

/-- One line of the generated props interface. -/
def propLine (p : PropDef) : Str :=
  "/** ".data ++ p.description.getD [] ++ " */\n  ".data ++ p.name
    ++ (if containsLit ("?".data) p.type || jsTruthyStr p.defaultValue then "?".data else [])
    ++ ": ".data ++ p.type ++ ";".data

/-- One binder of the generated destructuring parameter. -/
def propBind (p : PropDef) : Str :=
  if jsTruthyStr p.defaultValue then p.name ++ " = ".data ++ p.defaultValue.getD []
  else p.name

/-- The component template of `generateReactComponent` before formatting. -/
def assembleComponentCode (componentName : Str) (n : FigmaNode) : Str :=
  let componentParts := figmaNodeToJSX n 0
  let enhancedJSX := enhanceWithAccessibility componentParts.jsx n
  let uniqueProps := dedupeProps componentParts.props
  "\nimport React from \x27react\x27;\n".data
    ++ List.intercalate ("\n".data) componentParts.imports
    ++ "\n\ninterface ".data ++ componentName ++ "Props \x7b\n  ".data
    ++ List.intercalate ("\n  ".data) (uniqueProps.map propLine)
    ++ "\n\x7d\n\nexport const ".data ++ componentName ++ " = (\x7b \n  ".data
    ++ List.intercalate (", ".data) (uniqueProps.map propBind)
    ++ " \n\x7d: ".data ++ componentName ++ "Props) => \x7b\n  return (\n    ".data
    ++ enhancedJSX ++ "\n  );\n\x7d;\n".data

/-- `generateReactComponent`, with the external formatter (`prettier`)
abstracted as a fallible function: on a formatter error the unformatted
template is returned (the `try`/`catch` of the source). -/
def generateReactComponent (fmt : Str → Except Str Str) (componentName : Str)
    (n : FigmaNode) : Str :=
  let componentCode := assembleComponentCode componentName n
  match fmt componentCode with
  | Except.ok formatted => formatted
  | Except.error _ => componentCode

/-!
Concrete nodes used as test inputs below.
-/

/-- A node with every optional attribute absent. -/
def baseNode : FigmaNode :=
  ⟨"1:1".data, [], [], none, [], none, none, none, none, none, none, none⟩

/-- A TEXT node with font size 32 and a neutral name. -/
def textNode32 : FigmaNode :=
  { baseNode with
      name := "Title".data
      type := "TEXT".data
      style := some ⟨some 32, none, none, none⟩ }

/-- A rounded, filled rectangle whose name has no button keyword. -/
def boxNode : FigmaNode :=
  { baseNode with
      name := "box".data
      type := "RECTANGLE".data
      cornerRadius := some 5
      fills := some [⟨"SOLID".data, ⟨0, 0, 0⟩, none⟩] }

/-- A TEXT child with text content. -/
def labelChild : FigmaNode :=
  { baseNode with
      id := "2:2".data
      name := "Label".data
      type := "TEXT".data
      characters := some ("Hi".data) }

/-- A FRAME with a container-keyword name and one child. -/
def cardContainer : FigmaNode :=
  { baseNode with
      name := "Card Container".data
      type := "FRAME".data
      children := [labelChild] }

/-- A FRAME with the same child but no container keyword. -/
def cardPlain : FigmaNode :=
  { baseNode with
      name := "Card".data
      type := "FRAME".data
      children := [labelChild] }

/-- A node whose first fill is solid with opacity exactly 0. -/
def opacity0Node : FigmaNode :=
  { baseNode with fills := some [⟨"SOLID".data, ⟨0, 0, 0⟩, some 0⟩] }

/-- A plain IMAGE node. -/
def imgNode : FigmaNode :=
  { baseNode with
      name := "Hero Image".data
      type := "IMAGE".data }

/-- A node with only a corner radius of 8. -/
def radius8Node : FigmaNode := { baseNode with cornerRadius := some 8 }

/-- A node with only a corner radius of 9. -/
def radius9Node : FigmaNode := { baseNode with cornerRadius := some 9 }

/-- A node with only a font size of 16. -/
def font16Node : FigmaNode := { baseNode with style := some ⟨some 16, none, none, none⟩ }

/-- A node with only a font size of 17. -/
def font17Node : FigmaNode := { baseNode with style := some ⟨some 17, none, none, none⟩ }

/-!
Recursion unfolding for `figmaNodeToJSX`: the fuel never runs out, so the
function satisfies the intended recursive equation.
-/

theorem nodeSize_pos (n : FigmaNode) : 1 ≤ nodeSize n := by
  cases n
  simp [nodeSize]

theorem nodeSize_le_of_mem {c : FigmaNode} {cs : List FigmaNode} (h : c ∈ cs) :
    nodeSize c ≤ nodesSize cs := by
  induction cs with
  | nil => cases h
  | cons d ds ih =>
    rcases List.mem_cons.mp h with h1 | h2
    · subst h1
      simp [nodesSize]
    · have := ih h2
      simp only [nodesSize]
      omega

theorem nodeSize_lt_of_mem {c n : FigmaNode} (h : c ∈ n.children) :
    nodeSize c < nodeSize n := by
  cases n with
  | mk id name type characters children fills strokes sw cr effs st box =>
    have := nodeSize_le_of_mem h
    simp only [nodeSize]
    simp only at this
    omega

theorem childrenAgg_congr (r1 r2 : FigmaNode → Nat → RCParts) (lvl : Nat)
    (cs : List FigmaNode) (h : ∀ c ∈ cs, ∀ l, r1 c l = r2 c l) :
    childrenAgg r1 lvl cs = childrenAgg r2 lvl cs := by
  induction cs with
  | nil => rfl
  | cons d ds ih =>
    simp only [childrenAgg]
    rw [h d (List.mem_cons_self d ds) lvl,
      ih (fun c hc l => h c (List.mem_cons_of_mem d hc) l)]

theorem jsxStep_congr (r1 r2 : FigmaNode → Nat → RCParts) (n : FigmaNode) (level : Nat)
    (h : ∀ c ∈ n.children, ∀ l, r1 c l = r2 c l) :
    jsxStep r1 n level = jsxStep r2 n level := by
  unfold jsxStep
  rw [childrenAgg_congr r1 r2 (level + 1) n.children h]

theorem jsxFuel_irrel (f : Nat) : ∀ (g : Nat) (n : FigmaNode) (level : Nat),
    nodeSize n ≤ f → nodeSize n ≤ g → jsxFuel f n level = jsxFuel g n level := by
  induction f using Nat.strong_induction_on with
  | _ f ih =>
    intro g n level hf hg
    have h1 := nodeSize_pos n
    match f, g with
    | 0, _ => omega
    | _, 0 => omega
    | f' + 1, g' + 1 =>
      simp only [jsxFuel]
      apply jsxStep_congr
      intro c hc l
      have hlt := nodeSize_lt_of_mem hc
      exact ih f' (Nat.lt_succ_self f') g' c l (by omega) (by omega)

/-- The recursive equation of `figmaNodeToJSX`. -/
theorem figmaNodeToJSX_eq (n : FigmaNode) (level : Nat) :
    figmaNodeToJSX n level = jsxStep (fun c l => figmaNodeToJSX c l) n level := by
  unfold figmaNodeToJSX
  have h1 := nodeSize_pos n
  match hs : nodeSize n with
  | 0 => omega
  | m + 1 =>
    simp only [jsxFuel]
    apply jsxStep_congr
    intro c hc l
    have hlt := nodeSize_lt_of_mem hc
    rw [hs] at hlt
    exact jsxFuel_irrel m (nodeSize c) c l (by omega) (by omega)

/-!
Provenance of colour tokens: the fold result is the initial `"text-black"`
or one of the palette class names.
-/

theorem colorStep_snd (r1 g1 b1 : Option ℤ) (acc : Option ℤ × Str) (e : Str × Str) :
    (colorStep r1 g1 b1 acc e).2 = acc.2 ∨ (colorStep r1 g1 b1 acc e).2 = e.2 := by
  unfold colorStep
  by_cases h : distLt (distSq r1 g1 b1 (jsParseIntHex (jsSlice e.1 1 3))
      (jsParseIntHex (jsSlice e.1 3 5)) (jsParseIntHex (jsSlice e.1 5 7))) acc.1
  · simp [h]
  · simp [h]

theorem foldl_colorStep_mem (r1 g1 b1 : Option ℤ) (l : List (Str × Str)) :
    ∀ acc : Option ℤ × Str,
      (l.foldl (colorStep r1 g1 b1) acc).2 = acc.2 ∨
      (l.foldl (colorStep r1 g1 b1) acc).2 ∈ l.map Prod.snd := by
  induction l with
  | nil => intro acc; left; rfl
  | cons e es ih =>
    intro acc
    simp only [List.foldl_cons, List.map_cons]
    rcases ih (colorStep r1 g1 b1 acc e) with h | h
    · rcases colorStep_snd r1 g1 b1 acc e with h2 | h2
      · left
        rw [h, h2]
      · right
        rw [h, h2]
        exact List.mem_cons_self e.2 _
    · right
      exact List.mem_cons_of_mem e.2 h

/-- Every colour class the mapper can return. -/
def colorCandidates : List Str := "text-black".data :: tailwindColors.map Prod.snd

theorem mapToTailwindColor_mem (hex : Str) :
    mapToTailwindColor hex ∈ colorCandidates := by
  unfold mapToTailwindColor colorCandidates
  rcases foldl_colorStep_mem (jsParseIntHex (jsSlice hex 1 3))
      (jsParseIntHex (jsSlice hex 3 5)) (jsParseIntHex (jsSlice hex 5 7))
      tailwindColors ((none : Option ℤ), "text-black".data) with h | h
  · rw [h]; exact List.mem_cons_self _ _
  · exact List.mem_cons_of_mem _ h

/-!
No token other than the opacity push begins with `"opacity-"`.
-/

theorem isPrefixOf_false_of_head_ne (p : Char) (ps : Str) (c : Char) (cs : Str)
    (h : (p == c) = false) : List.isPrefixOf (p :: ps) (c :: cs) = false := by
  simp only [List.isPrefixOf, List.cons_beq_cons]
  simp [h]

theorem opacity_data_eq : "opacity-".data = 'o' :: "pacity-".data := rfl

theorem color_not_opacity (hex : Str) :
    ("opacity-".data).isPrefixOf (mapToTailwindColor hex) = false := by
  have h := mapToTailwindColor_mem hex
  revert h
  unfold colorCandidates tailwindColors
  intro h
  simp only [List.map_cons, List.map_nil, List.mem_cons, List.not_mem_nil,
    or_false] at h
  rcases h with h | h | h | h | h | h | h | h | h | h | h <;> rw [h] <;> decide

theorem fontSize_not_opacity (fs : JSNum) :
    ("opacity-".data).isPrefixOf (mapFontSizeToTailwind fs) = false := by
  unfold mapFontSizeToTailwind
  split_ifs <;> decide

theorem fontWeight_not_opacity (fw : JSNum) :
    ("opacity-".data).isPrefixOf (mapFontWeightToTailwind fw) = false := by
  unfold mapFontWeightToTailwind
  split_ifs <;> decide

theorem styleTokens_not_opacity (n : FigmaNode) :
    ∀ t ∈ styleTokens n, ("opacity-".data).isPrefixOf t = false := by
  intro t ht
  unfold styleTokens at ht
  rcases hst : n.style with _ | st
  · rw [hst] at ht; cases ht
  · rw [hst] at ht
    simp only [List.mem_append] at ht
    rcases ht with ((h | h) | h) | h
    · rcases hfs : st.fontSize with _ | fs <;> rw [hfs] at h
      · cases h
      · replace h : t ∈ (if (!jqEq fs 0) = true then [mapFontSizeToTailwind fs] else []) := h
        split at h
        · simp only [List.mem_singleton] at h
          rw [h]; exact fontSize_not_opacity fs
        · cases h
    · rcases hfw : st.fontWeight with _ | fw <;> rw [hfw] at h
      · cases h
      · replace h : t ∈ (if (!jqEq fw 0) = true then [mapFontWeightToTailwind fw] else []) := h
        split at h
        · simp only [List.mem_singleton] at h
          rw [h]; exact fontWeight_not_opacity fw
        · cases h
    · rcases hlh : st.lineHeight with _ | lh <;> rw [hlh] at h
      · cases h
      · replace h : t ∈ (if (!jqEq lh 0) = true then [mapLineHeightToTailwind lh] else []) := h
        split at h
        · simp only [List.mem_singleton] at h
          rw [h]; unfold mapLineHeightToTailwind; split_ifs <;> decide
        · cases h
    · rcases hls : st.letterSpacing with _ | ls <;> rw [hls] at h
      · cases h
      · replace h : t ∈ (if (!jqEq ls 0) = true then [mapLetterSpacingToTailwind ls] else []) := h
        split at h
        · simp only [List.mem_singleton] at h
          rw [h]; unfold mapLetterSpacingToTailwind; split_ifs <;> decide
        · cases h

theorem sizeTokens_not_opacity (n : FigmaNode) :
    ∀ t ∈ sizeTokens n, ("opacity-".data).isPrefixOf t = false := by
  intro t ht
  unfold sizeTokens at ht
  rcases hb : n.absoluteBoundingBox with _ | box <;> rw [hb] at ht
  · cases ht
  · simp only [List.mem_cons, List.not_mem_nil, or_false] at ht
    rcases ht with h | h <;> rw [h]
    · have hw : ("w-".data) ++ mapToTailwindSize box.width
          = 'w' :: '-' :: mapToTailwindSize box.width := rfl
      rw [hw, opacity_data_eq]
      exact isPrefixOf_false_of_head_ne _ _ _ _ (by decide)
    · have hh : ("h-".data) ++ mapToTailwindSize box.height
          = 'h' :: '-' :: mapToTailwindSize box.height := rfl
      rw [hh, opacity_data_eq]
      exact isPrefixOf_false_of_head_ne _ _ _ _ (by decide)

theorem radiusTokens_not_opacity (n : FigmaNode) :
    ∀ t ∈ radiusTokens n, ("opacity-".data).isPrefixOf t = false := by
  intro t ht
  unfold radiusTokens at ht
  rcases hc : n.cornerRadius with _ | cr <;> rw [hc] at ht
  · cases ht
  · replace ht : t ∈ (if (!jqEq cr 0) = true then [mapCornerRadiusToTailwind cr] else []) := ht
    split at ht
    · simp only [List.mem_singleton] at ht
      rw [ht]; unfold mapCornerRadiusToTailwind; split_ifs <;> decide
    · cases ht

theorem borderColor_not_opacity (hex : Str) :
    ("opacity-".data).isPrefixOf
      (replaceFirstLit ("text-".data) ("border-".data) (mapToTailwindColor hex)) = false := by
  have h := mapToTailwindColor_mem hex
  revert h
  unfold colorCandidates tailwindColors
  intro h
  simp only [List.map_cons, List.map_nil, List.mem_cons, List.not_mem_nil,
    or_false] at h
  rcases h with h | h | h | h | h | h | h | h | h | h | h <;> rw [h] <;> decide

theorem borderTokens_not_opacity (n : FigmaNode) :
    ∀ t ∈ borderTokens n, ("opacity-".data).isPrefixOf t = false := by
  intro t ht
  unfold borderTokens at ht
  rcases hs : n.strokes with _ | strokes <;> rw [hs] at ht
  · cases ht
  · rcases strokes with _ | ⟨stroke, rest⟩
    · cases ht
    · by_cases hsol : stroke.type = "SOLID".data
      · simp only [if_pos hsol, List.mem_cons] at ht
        rcases ht with h | h
        · rw [h]; exact borderColor_not_opacity _
        · rcases hw : n.strokeWeight with _ | sw <;> rw [hw] at h
          · cases h
          · replace h : t ∈ (if (!jqEq sw 0) = true then [mapStrokeWeightToTailwind sw] else []) := h
            split at h
            · simp only [List.mem_singleton] at h
              rw [h]; unfold mapStrokeWeightToTailwind; split_ifs <;> decide
            · cases h
      · simp only [if_neg hsol] at ht; cases ht

theorem shadowTokens_not_opacity (n : FigmaNode) :
    ∀ t ∈ shadowTokens n, ("opacity-".data).isPrefixOf t = false := by
  intro t ht
  unfold shadowTokens at ht
  split at ht
  · cases ht
  · split at ht
    · cases ht
    · simp only [List.mem_singleton] at ht
      rw [ht]; unfold mapShadowToTailwind; split_ifs <;> decide

/-- Shape of `fillTokens` for a solid first fill. -/
theorem fillTokens_solid (n : FigmaNode) (f : FigmaPaint) (fs : List FigmaPaint)
    (hf : n.fills = some (f :: fs)) (hsol : f.type = "SOLID".data) :
    fillTokens n =
      mapToTailwindColor (rgbToHex (jqMul f.color.r 255) (jqMul f.color.g 255)
        (jqMul f.color.b 255)) ::
      (match f.opacity with
       | some o =>
         if !jqEq o 0 && jqLt o 1 then
           ["opacity-".data ++ intToStr (jsRound (jqMul o 100))]
         else []
       | none => []) := by
  simp only [fillTokens, hf]
  rw [if_pos hsol]

/-!
Claim C4 — opacity token.
-/

/-- C4 counterexample: the first fill is solid with opacity exactly 0, which
is strictly less than 1, yet the mapper emits only the colour token and no
opacity token (`fill.opacity` is falsy in JS when it is 0). -/
theorem C4_counterexample :
    opacity0Node.fills = some [⟨"SOLID".data, ⟨0, 0, 0⟩, some 0⟩] ∧ jqLt 0 1 = true ∧
    convertFigmaStylesToTailwind opacity0Node = ["text-black".data] ∧
    ("opacity-".data ++ intToStr (jsRound (jqMul 0 100))) ∉
      convertFigmaStylesToTailwind opacity0Node := by
  refine ⟨rfl, by decide, by decide, by decide⟩

/-- C4 amended: for a node whose first fill is solid with opacity present,
the `round(opacity*100)` token is appended when the opacity is nonzero and
less than 1; when the opacity equals 0 no opacity-prefixed token appears in
the output at all. -/
theorem C4_opacity_token (n : FigmaNode) (f : FigmaPaint) (fs : List FigmaPaint) (o : JSNum)
    (hf : n.fills = some (f :: fs)) (hsol : f.type = "SOLID".data) (hop : f.opacity = some o) :
    ((!jqEq o 0 && jqLt o 1) = true →
      ("opacity-".data ++ intToStr (jsRound (jqMul o 100))) ∈ convertFigmaStylesToTailwind n) ∧
    (jqEq o 0 = true → ∀ t ∈ convertFigmaStylesToTailwind n,
      ("opacity-".data).isPrefixOf t = false) := by
  constructor
  · intro hcond
    unfold convertFigmaStylesToTailwind
    apply List.mem_append_left
    apply List.mem_append_left
    apply List.mem_append_left
    apply List.mem_append_left
    apply List.mem_append_left
    rw [fillTokens_solid n f fs hf hsol]
    simp only [hop]
    rw [if_pos hcond]
    exact List.mem_cons_of_mem _ (List.mem_singleton.mpr rfl)
  · intro h0 t ht
    unfold convertFigmaStylesToTailwind at ht
    simp only [List.mem_append] at ht
    rcases ht with ((((h | h) | h) | h) | h) | h
    · rw [fillTokens_solid n f fs hf hsol] at h
      simp only [hop, h0, Bool.not_true, Bool.false_and, if_false, List.mem_singleton,
        Bool.false_eq_true, List.not_mem_nil, or_false, List.mem_cons] at h
      rw [h]
      exact color_not_opacity _
    · exact styleTokens_not_opacity n t h
    · exact sizeTokens_not_opacity n t h
    · exact radiusTokens_not_opacity n t h
    · exact borderTokens_not_opacity n t h
    · exact shadowTokens_not_opacity n t h

/-- C4 witness: the amended theorem applied at a fill of opacity 1/2 (token
appended) and at the opacity-0 node (no opacity token). -/
theorem C4_opacity_token_witness :
    (("opacity-".data ++ intToStr (jsRound (jqMul ⟨1, 2⟩ 100))) ∈
      convertFigmaStylesToTailwind
        { baseNode with fills := some [⟨"SOLID".data, ⟨0, 0, 0⟩, some ⟨1, 2⟩⟩] }) ∧
    (∀ t ∈ convertFigmaStylesToTailwind opacity0Node,
      ("opacity-".data).isPrefixOf t = false) :=
  ⟨(C4_opacity_token _ _ [] ⟨1, 2⟩ rfl rfl rfl).1 (by decide),
   (C4_opacity_token _ _ [] 0 rfl rfl rfl).2 (by decide)⟩

/-!
Claim C6 — breakpoint boundaries.
-/

/-- C6: `fontSize` 16 maps to the base size token and 17 to `lg`;
`cornerRadius` 8 maps to `rounded-lg` and 9 to `rounded-xl`, both as the
bare mapping function and through the full style mapper. -/
theorem C6_breakpoint_boundaries :
    mapFontSizeToTailwind 16 = "text-base".data ∧
    mapFontSizeToTailwind 17 = "text-lg".data ∧
    convertFigmaStylesToTailwind font16Node = ["text-base".data] ∧
    convertFigmaStylesToTailwind font17Node = ["text-lg".data] ∧
    convertFigmaStylesToTailwind radius8Node = ["rounded-lg".data] ∧
    convertFigmaStylesToTailwind radius9Node = ["rounded-xl".data] := by
  refine ⟨by decide, by decide, by decide, by decide, by decide, by decide⟩

/-!
Claim C7 — style-mapping totality.
-/

/-- C7: when every optional visual attribute is absent the style mapper
returns the empty token list (and, being a total function, never fails). -/
theorem C7_style_mapper_total (n : FigmaNode) (h1 : n.fills = none) (h2 : n.strokes = none)
    (h3 : n.style = none) (h4 : n.absoluteBoundingBox = none) (h5 : n.cornerRadius = none)
    (h6 : n.effects = none) : convertFigmaStylesToTailwind n = [] := by
  unfold convertFigmaStylesToTailwind fillTokens styleTokens sizeTokens radiusTokens
    borderTokens shadowTokens
  rw [h1, h2, h3, h4, h5, h6]
  rfl

/-- C7 witness: the all-absent node maps to the empty token list. -/
theorem C7_style_mapper_total_witness :
    baseNode.fills = none ∧ baseNode.strokes = none ∧ baseNode.style = none ∧
    baseNode.absoluteBoundingBox = none ∧ baseNode.cornerRadius = none ∧
    baseNode.effects = none ∧ convertFigmaStylesToTailwind baseNode = [] :=
  ⟨rfl, rfl, rfl, rfl, rfl, rfl,
   C7_style_mapper_total baseNode rfl rfl rfl rfl rfl rfl⟩

/-!
Claim C8 — formatting failure falls back to the unformatted source.
-/

/-- A formatter that always fails. -/
def failingFmt : Str → Except Str Str := fun _ => Except.error ("format error".data)

/-- C8: when the formatter raises on the assembled component, generation
still returns (it cannot fail) and yields the unformatted source. -/
theorem C8_formatting_fallback (fmt : Str → Except Str Str) (componentName : Str)
    (n : FigmaNode) (e : Str) (h : fmt (assembleComponentCode componentName n) = Except.error e) :
    generateReactComponent fmt componentName n = assembleComponentCode componentName n := by
  simp only [generateReactComponent, h]

/-- C8 witness: an always-failing formatter on a concrete node. -/
theorem C8_formatting_fallback_witness :
    failingFmt (assembleComponentCode ("Card".data) cardPlain) =
      Except.error ("format error".data) ∧
    generateReactComponent failingFmt ("Card".data) cardPlain =
      assembleComponentCode ("Card".data) cardPlain :=
  ⟨rfl, C8_formatting_fallback failingFmt ("Card".data) cardPlain ("format error".data) rfl⟩

/-!
Claim C2 — button-likely classification versus the name rule.
-/

/-- Modelled from the spec (section 4.2 name rule): the node name contains
"button" or "btn" case-insensitively. -/
def specButtonNameRule (name : Str) : Bool :=
  containsLit ("button".data) (jsLower name) || containsLit ("btn".data) (jsLower name)

/-- The extra style heuristic of `isLikelyButton` beyond the name rule:
truthy positive corner radius plus a nonempty fills array. -/
def buttonStyleHeuristic (n : FigmaNode) : Bool :=
  (jsTruthyNum n.cornerRadius &&
    (match n.cornerRadius with | some r => jqLt 0 r | none => false)) &&
  (match n.fills with | some fs => !fs.isEmpty | none => false)

/-- C2 counterexample: a rounded, filled rectangle named "box" (no
button/btn in the name) on markup with no dedicated button element: pass 3
fires and rewrites the generic wrapper, so the classification is not the
name rule alone. -/
theorem C2_counterexample :
    specButtonNameRule boxNode.name = false ∧
    containsLit ("<button".data) ("<div></div>".data) = false ∧
    enhanceWithAccessibility ("<div></div>".data) boxNode =
      ("<div role=\"button\" tabIndex=\x7b0\x7d onKeyDown=\x7b(e) => e.key === \"Enter\" && onClick && onClick(e)\x7d></div>".data) ∧
    enhanceWithAccessibility ("<div></div>".data) boxNode ≠ ("<div></div>".data) := by
  refine ⟨by decide, by decide, by decide, by decide⟩

/-- C2 amended: the button-likely classification that guards pass 3 equals
the name rule extended by the style heuristic (truthy positive
`cornerRadius` together with at least one fill). -/
theorem C2_button_classification (n : FigmaNode) :
    isLikelyButton n = (specButtonNameRule n.name || buttonStyleHeuristic n) := by
  have hspec : specButtonNameRule n.name = nameHasButton n.name := rfl
  unfold isLikelyButton buttonStyleHeuristic
  rw [hspec]
  rcases hn : nameHasButton n.name
  · simp only [Bool.false_eq_true, if_false, Bool.false_or]
    rcases hA : (jsTruthyNum n.cornerRadius &&
        (match n.cornerRadius with | some r => jqLt 0 r | none => false))
    · simp only [Bool.false_eq_true, if_false, Bool.false_and]
    · simp only [if_true, Bool.true_and]
  · simp only [if_true, Bool.true_or]

/-!
Claim C1 — child merging in the container case.
-/

theorem container_not_text {t : Str} (h : isContainerType t = true) : ¬t = "TEXT".data := by
  unfold isContainerType at h
  simp only [Bool.or_eq_true, decide_eq_true_eq] at h
  rcases h with ((h | h) | h) | h <;> rw [h] <;> decide

theorem container_not_shape {t : Str} (h : isContainerType t = true) : isShapeType t = false := by
  unfold isContainerType at h
  simp only [Bool.or_eq_true, decide_eq_true_eq] at h
  rcases h with ((h | h) | h) | h <;> rw [h] <;> decide

theorem childrenAgg_props_mem (rec : FigmaNode → Nat → RCParts) (lvl : Nat)
    (cs : List FigmaNode) (c : FigmaNode) (hc : c ∈ cs) (p : PropDef)
    (hp : p ∈ (rec c lvl).props) : p ∈ (childrenAgg rec lvl cs).2.2 := by
  induction cs with
  | nil => cases hc
  | cons d ds ih =>
    simp only [childrenAgg]
    rcases List.mem_cons.mp hc with h | h
    · subst h
      exact List.mem_append_left _ hp
    · exact List.mem_append_right _ (ih h)

/-- C1 counterexample: the child TEXT node's translation contains a prop
named "label", yet the parent "Card Container" (for which a children prop
is extracted) has no such prop in its result — child properties are not
merged in the placeholder case. -/
theorem C1_counterexample :
    ((figmaNodeToJSX labelChild 1).props.any (fun p => p.name = "label".data)) = true ∧
    labelChild ∈ cardContainer.children ∧
    isContainerType cardContainer.type = true ∧
    ((figmaNodeToJSX cardContainer 0).props.any (fun p => p.name = "label".data)) = false :=
  ⟨by decide, List.mem_cons_self _ _, by decide, by decide⟩

/-- C1 amended: for a container node, child imports are always merged into
the parent result; child properties are merged exactly when the node is
button-like or when no "children" property was extracted — when the
child-content placeholder is substituted, the parent keeps only its own
extracted properties, dropping the children's. -/
theorem C1_child_merging (n : FigmaNode) (level : Nat)
    (hc : isContainerType n.type = true) :
    ((figmaNodeToJSX n level).imports =
      (childrenAgg (fun c l => figmaNodeToJSX c l) (level + 1) n.children).2.1) ∧
    ((nameHasButton n.name = true ∨
      (extractProps n).any (fun p => p.name = "children".data) = false) →
      ∀ c ∈ n.children, ∀ p ∈ (figmaNodeToJSX c (level + 1)).props,
        p ∈ (figmaNodeToJSX n level).props) ∧
    ((nameHasButton n.name = false ∧
      (extractProps n).any (fun p => p.name = "children".data) = true) →
      (figmaNodeToJSX n level).props = extractProps n) := by
  rw [figmaNodeToJSX_eq]
  unfold jsxStep
  rw [if_neg (container_not_text hc)]
  rw [if_neg (by rw [container_not_shape hc]; exact Bool.false_ne_true)]
  rw [if_pos hc]
  rcases hb : nameHasButton n.name
  · simp only [Bool.false_eq_true, if_false]
    rcases hcp : (extractProps n).any (fun p => p.name = "children".data)
    · simp only [Bool.false_eq_true, if_false]
      refine ⟨by trivial, ?_, ?_⟩
      · intro _ c hcm p hp
        exact List.mem_append_right _ (childrenAgg_props_mem _ _ _ c hcm p hp)
      · intro h
        exact absurd h.2 (by simp)
    · simp only [if_true]
      refine ⟨by trivial, ?_, ?_⟩
      · intro h
        rcases h with h | h
        · exact absurd h (by simp)
        · exact absurd h (by simp)
      · intro _
        exact List.append_nil _
  · simp only [if_true]
    refine ⟨by trivial, ?_, ?_⟩
    · intro _ c hcm p hp
      exact List.mem_append_right _ (childrenAgg_props_mem _ _ _ c hcm p hp)
    · intro h
      exact absurd h.1 (by simp)

/-- The text-content prop the child "Label" contributes. -/
def labelTextProp : PropDef :=
  ⟨"label".data, "string".data, some (jsonStringify ("Hi".data)),
   some ("Text content for Label".data)⟩

/-- C1 witness: on "Card" (no children prop) the child's label prop is
merged; on "Card Container" (children prop extracted) the result keeps only
the parent's own props. -/
theorem C1_child_merging_witness :
    isContainerType cardPlain.type = true ∧
    labelTextProp ∈ (figmaNodeToJSX cardPlain 0).props ∧
    isContainerType cardContainer.type = true ∧
    (figmaNodeToJSX cardContainer 0).props = extractProps cardContainer :=
  ⟨by decide,
   (C1_child_merging cardPlain 0 (by decide)).2.1 (Or.inr (by decide))
     labelChild (List.mem_cons_self _ _) labelTextProp (by decide),
   by decide,
   (C1_child_merging cardContainer 0 (by decide)).2.2 ⟨by decide, by decide⟩⟩

/-!
Claim C3 — placeholder versus inlined children.
-/

/-- The concatenated children markup of the container case (per-child
newline + indentation, then the trailing newline + parent indentation). -/
def childrenMarkup (n : FigmaNode) (level : Nat) : Str :=
  (childrenAgg (fun c l => figmaNodeToJSX c l) (level + 1) n.children).1
    ++ "\n".data ++ indentStr level

/-- For container-typed nodes, a "children" prop is extracted exactly when
the node has a child and a container-keyword name. -/
theorem extractProps_children_iff (n : FigmaNode) (hc : isContainerType n.type = true) :
    ((extractProps n).any (fun p => p.name = "children".data)) =
      (!n.children.isEmpty && nameHasContainerKeyword n.name) := by
  unfold extractProps
  rw [if_neg (fun h => container_not_text hc h.1)]
  simp only [List.nil_append, List.any_append, List.any_cons, List.any_nil]
  split_ifs with h1 h2 h3 <;> simp_all

/-- C3: (a) the "children" prop is extracted for a container exactly when
it has a child and a container-keyword name; (b) for a non-button container
with children the emitted markup places either the single placeholder or
the literal children markup (never both — the two bodies always differ)
between the fixed wrapper parts; (c) at the spec's example pair, "Card
Container" contains the placeholder exactly once and not the literal
subtree markup, while "Card" contains the literal subtree markup and no
placeholder. -/
theorem C3_children_substitution :
    (∀ n : FigmaNode, isContainerType n.type = true →
      ((extractProps n).any (fun p => p.name = "children".data)) =
        (!n.children.isEmpty && nameHasContainerKeyword n.name)) ∧
    (∀ (n : FigmaNode) (level : Nat), isContainerType n.type = true →
      n.children ≠ [] → nameHasButton n.name = false →
      ((figmaNodeToJSX n level).jsx =
        "<div \n  className=\"".data ++
          List.intercalate (" ".data) (convertFigmaStylesToTailwind n) ++ " ".data ++
          nameDashLower n.name ++ "\"\n>".data ++
          (if (extractProps n).any (fun p => p.name = "children".data) then
            "\x7bchildren\x7d".data
          else childrenMarkup n level) ++ "</div>".data) ∧
      childrenMarkup n level ≠ "\x7bchildren\x7d".data) ∧
    (countLit ("\x7bchildren\x7d".data) (figmaNodeToJSX cardContainer 0).jsx = 1 ∧
     containsLit (childrenMarkup cardContainer 0) (figmaNodeToJSX cardContainer 0).jsx = false ∧
     containsLit (childrenMarkup cardPlain 0) (figmaNodeToJSX cardPlain 0).jsx = true ∧
     countLit ("\x7bchildren\x7d".data) (figmaNodeToJSX cardPlain 0).jsx = 0) := by
  refine ⟨extractProps_children_iff, ?_, by decide, by decide, by decide, by decide⟩
  intro n level hc hne hb
  constructor
  · rw [figmaNodeToJSX_eq]
    simp only [jsxStep]
    rw [if_neg (container_not_text hc)]
    rw [if_neg (by rw [container_not_shape hc]; exact Bool.false_ne_true)]
    rw [if_pos hc]
    rw [if_neg (by rw [hb]; exact Bool.false_ne_true)]
    rw [show n.children.isEmpty = false from by simp [hne]]
    simp only [Bool.false_eq_true, if_false]
    rfl
  · cases hch : n.children with
    | nil => exact absurd hch hne
    | cons c cs =>
      intro heq
      have hhead : (childrenMarkup n level).head? = some '\n' := by
        unfold childrenMarkup
        rw [hch]
        rfl
      rw [heq] at hhead
      exact absurd hhead (by decide)

/-- C3 witness: the characterisation and the body dichotomy instantiated at
the "Card Container" example. -/
theorem C3_children_substitution_witness :
    ((extractProps cardContainer).any (fun p => p.name = "children".data) =
      (!cardContainer.children.isEmpty && nameHasContainerKeyword cardContainer.name)) ∧
    childrenMarkup cardContainer 0 ≠ "\x7bchildren\x7d".data :=
  ⟨C3_children_substitution.1 cardContainer (by decide),
   (C3_children_substitution.2.1 cardContainer 0 (by decide)
     (List.cons_ne_nil _ _) (by decide)).2⟩

/-!
Character sets of emitted tokens and identifiers: every style token is made
of alphanumerics and dashes; sanitised prop names are alphanumeric.  These
facts drive the no-match arguments for the accessibility passes.
-/

/-- Characters a style token may contain. -/
def tokChar (c : Char) : Prop := c.isAlphanum = true ∨ c = '-'

theorem tokChar_of_mem_of_all (s : Str)
    (hs : (s.all (fun c => c.isAlphanum || c = '-')) = true) (c : Char) (hc : c ∈ s) :
    tokChar c := by
  have h2 := List.all_eq_true.mp hs c hc
  simp only [Bool.or_eq_true, decide_eq_true_eq] at h2
  exact h2

theorem digitChar_alnum (d : Nat) : (digitChar d).isAlphanum = true := by
  unfold digitChar
  split <;> decide

theorem hexDigitChar_alnum (d : Nat) : (hexDigitChar d).isAlphanum = true := by
  unfold hexDigitChar
  split <;> first | decide | exact digitChar_alnum _

theorem natToDigitsAux_alnum (b : Nat) (dig : Nat → Char)
    (hdig : ∀ d, (dig d).isAlphanum = true) :
    ∀ (fuel n : Nat), ∀ c ∈ natToDigitsAux b dig fuel n, c.isAlphanum = true := by
  intro fuel
  induction fuel with
  | zero => intro n c hc; cases hc
  | succ f ih =>
    intro n c hc
    unfold natToDigitsAux at hc
    split at hc
    · simp only [List.mem_singleton] at hc
      rw [hc]; exact hdig _
    · rcases List.mem_append.mp hc with h | h
      · exact ih _ c h
      · simp only [List.mem_singleton] at h
        rw [h]; exact hdig _

theorem intToStr_chars (z : ℤ) : ∀ c ∈ intToStr z, tokChar c := by
  intro c hc
  unfold intToStr natToStr at hc
  split at hc
  · rcases List.mem_cons.mp hc with h | h
    · right; exact h
    · left; exact natToDigitsAux_alnum 10 digitChar digitChar_alnum _ _ c h
  · left; exact natToDigitsAux_alnum 10 digitChar digitChar_alnum _ _ c hc

theorem mapToTailwindColor_chars (hex : Str) :
    ∀ c ∈ mapToTailwindColor hex, tokChar c := by
  have h := mapToTailwindColor_mem hex
  revert h
  unfold colorCandidates tailwindColors
  intro h
  simp only [List.map_cons, List.map_nil, List.mem_cons, List.not_mem_nil,
    or_false] at h
  rcases h with h | h | h | h | h | h | h | h | h | h | h <;> rw [h] <;>
    exact fun c hc => tokChar_of_mem_of_all _ (by decide) c hc

theorem borderColor_chars (hex : Str) :
    ∀ c ∈ replaceFirstLit ("text-".data) ("border-".data) (mapToTailwindColor hex),
      tokChar c := by
  have h := mapToTailwindColor_mem hex
  revert h
  unfold colorCandidates tailwindColors
  intro h
  simp only [List.map_cons, List.map_nil, List.mem_cons, List.not_mem_nil,
    or_false] at h
  rcases h with h | h | h | h | h | h | h | h | h | h | h <;> rw [h] <;>
    exact fun c hc => tokChar_of_mem_of_all _ (by decide) c hc

theorem fillTokens_chars (n : FigmaNode) : ∀ t ∈ fillTokens n, ∀ c ∈ t, tokChar c := by
  intro t ht
  unfold fillTokens at ht
  split at ht
  · split at ht
    · rcases List.mem_cons.mp ht with h | h
      · rw [h]; exact mapToTailwindColor_chars _
      · split at h
        · split at h
          · simp only [List.mem_singleton] at h
            rw [h]
            intro c hc
            rcases List.mem_append.mp hc with h2 | h2
            · exact tokChar_of_mem_of_all _ (by decide) c h2
            · exact intToStr_chars _ c h2
          · cases h
        · cases h
    · cases ht
  · cases ht

theorem styleTokens_chars (n : FigmaNode) : ∀ t ∈ styleTokens n, ∀ c ∈ t, tokChar c := by
  intro t ht
  unfold styleTokens at ht
  rcases hst : n.style with _ | st
  · rw [hst] at ht; cases ht
  · rw [hst] at ht
    simp only [List.mem_append] at ht
    rcases ht with ((h | h) | h) | h
    · rcases hfs : st.fontSize with _ | fs <;> rw [hfs] at h
      · cases h
      · replace h : t ∈ (if (!jqEq fs 0) = true then [mapFontSizeToTailwind fs] else []) := h
        split at h
        · simp only [List.mem_singleton] at h
          rw [h]; unfold mapFontSizeToTailwind
          split_ifs <;> exact fun c hc => tokChar_of_mem_of_all _ (by decide) c hc
        · cases h
    · rcases hfw : st.fontWeight with _ | fw <;> rw [hfw] at h
      · cases h
      · replace h : t ∈ (if (!jqEq fw 0) = true then [mapFontWeightToTailwind fw] else []) := h
        split at h
        · simp only [List.mem_singleton] at h
          rw [h]; unfold mapFontWeightToTailwind
          split_ifs <;> exact fun c hc => tokChar_of_mem_of_all _ (by decide) c hc
        · cases h
    · rcases hlh : st.lineHeight with _ | lh <;> rw [hlh] at h
      · cases h
      · replace h : t ∈ (if (!jqEq lh 0) = true then [mapLineHeightToTailwind lh] else []) := h
        split at h
        · simp only [List.mem_singleton] at h
          rw [h]; unfold mapLineHeightToTailwind
          split_ifs <;> exact fun c hc => tokChar_of_mem_of_all _ (by decide) c hc
        · cases h
    · rcases hls : st.letterSpacing with _ | ls <;> rw [hls] at h
      · cases h
      · replace h : t ∈ (if (!jqEq ls 0) = true then [mapLetterSpacingToTailwind ls] else []) := h
        split at h
        · simp only [List.mem_singleton] at h
          rw [h]; unfold mapLetterSpacingToTailwind
          split_ifs <;> exact fun c hc => tokChar_of_mem_of_all _ (by decide) c hc
        · cases h

theorem mapToTailwindSize_mem (q : JSNum) :
    mapToTailwindSize q ∈ ["1".data, "2".data, "3".data, "4".data, "5".data, "6".data, "8".data, "10".data, "12".data, "16".data, "20".data, "24".data, "32".data, "40".data, "48".data, "64".data, "80".data, "96".data, "full".data] := by
  unfold mapToTailwindSize
  by_cases h0 : jqLe q 4 = true
  · rw [if_pos h0]; decide
  · rw [if_neg h0]
    by_cases h1 : jqLe q 8 = true
    · rw [if_pos h1]; decide
    · rw [if_neg h1]
      by_cases h2 : jqLe q 12 = true
      · rw [if_pos h2]; decide
      · rw [if_neg h2]
        by_cases h3 : jqLe q 16 = true
        · rw [if_pos h3]; decide
        · rw [if_neg h3]
          by_cases h4 : jqLe q 20 = true
          · rw [if_pos h4]; decide
          · rw [if_neg h4]
            by_cases h5 : jqLe q 24 = true
            · rw [if_pos h5]; decide
            · rw [if_neg h5]
              by_cases h6 : jqLe q 32 = true
              · rw [if_pos h6]; decide
              · rw [if_neg h6]
                by_cases h7 : jqLe q 40 = true
                · rw [if_pos h7]; decide
                · rw [if_neg h7]
                  by_cases h8 : jqLe q 48 = true
                  · rw [if_pos h8]; decide
                  · rw [if_neg h8]
                    by_cases h9 : jqLe q 64 = true
                    · rw [if_pos h9]; decide
                    · rw [if_neg h9]
                      by_cases h10 : jqLe q 80 = true
                      · rw [if_pos h10]; decide
                      · rw [if_neg h10]
                        by_cases h11 : jqLe q 96 = true
                        · rw [if_pos h11]; decide
                        · rw [if_neg h11]
                          by_cases h12 : jqLe q 128 = true
                          · rw [if_pos h12]; decide
                          · rw [if_neg h12]
                            by_cases h13 : jqLe q 160 = true
                            · rw [if_pos h13]; decide
                            · rw [if_neg h13]
                              by_cases h14 : jqLe q 192 = true
                              · rw [if_pos h14]; decide
                              · rw [if_neg h14]
                                by_cases h15 : jqLe q 256 = true
                                · rw [if_pos h15]; decide
                                · rw [if_neg h15]
                                  by_cases h16 : jqLe q 320 = true
                                  · rw [if_pos h16]; decide
                                  · rw [if_neg h16]
                                    by_cases h17 : jqLe q 384 = true
                                    · rw [if_pos h17]; decide
                                    · rw [if_neg h17]
                                      decide

theorem mapToTailwindSize_chars (q : JSNum) : ∀ c ∈ mapToTailwindSize q, tokChar c := by
  intro c hc
  have hm := mapToTailwindSize_mem q
  simp only [List.mem_cons, List.not_mem_nil, or_false] at hm
  rcases hm with h | h | h | h | h | h | h | h | h | h | h | h | h | h | h | h | h | h | h <;>
    rw [h] at hc <;> exact tokChar_of_mem_of_all _ (by decide) c hc

theorem sizeTokens_chars (n : FigmaNode) : ∀ t ∈ sizeTokens n, ∀ c ∈ t, tokChar c := by
  intro t ht
  unfold sizeTokens at ht
  rcases hb : n.absoluteBoundingBox with _ | box <;> rw [hb] at ht
  · cases ht
  · simp only [List.mem_cons, List.not_mem_nil, or_false] at ht
    rcases ht with h | h <;> rw [h] <;> intro c hc <;> rcases List.mem_append.mp hc with h2 | h2
    · exact tokChar_of_mem_of_all _ (by decide) c h2
    · exact mapToTailwindSize_chars _ c h2
    · exact tokChar_of_mem_of_all _ (by decide) c h2
    · exact mapToTailwindSize_chars _ c h2

theorem radiusTokens_chars (n : FigmaNode) : ∀ t ∈ radiusTokens n, ∀ c ∈ t, tokChar c := by
  intro t ht
  unfold radiusTokens at ht
  rcases hc2 : n.cornerRadius with _ | cr <;> rw [hc2] at ht
  · cases ht
  · replace ht : t ∈ (if (!jqEq cr 0) = true then [mapCornerRadiusToTailwind cr] else []) := ht
    split at ht
    · simp only [List.mem_singleton] at ht
      rw [ht]; unfold mapCornerRadiusToTailwind
      split_ifs <;> exact fun c hc => tokChar_of_mem_of_all _ (by decide) c hc
    · cases ht

theorem borderTokens_chars (n : FigmaNode) : ∀ t ∈ borderTokens n, ∀ c ∈ t, tokChar c := by
  intro t ht
  unfold borderTokens at ht
  rcases hs : n.strokes with _ | strokes <;> rw [hs] at ht
  · cases ht
  · rcases strokes with _ | ⟨stroke, rest⟩
    · cases ht
    · by_cases hsol : stroke.type = "SOLID".data
      · simp only [if_pos hsol, List.mem_cons] at ht
        rcases ht with h | h
        · rw [h]; exact borderColor_chars _
        · rcases hw : n.strokeWeight with _ | sw <;> rw [hw] at h
          · cases h
          · replace h : t ∈ (if (!jqEq sw 0) = true then [mapStrokeWeightToTailwind sw] else []) := h
            split at h
            · simp only [List.mem_singleton] at h
              rw [h]; unfold mapStrokeWeightToTailwind
              split_ifs <;> exact fun c hc => tokChar_of_mem_of_all _ (by decide) c hc
            · cases h
      · simp only [if_neg hsol] at ht; cases ht

theorem shadowTokens_chars (n : FigmaNode) : ∀ t ∈ shadowTokens n, ∀ c ∈ t, tokChar c := by
  intro t ht
  unfold shadowTokens at ht
  split at ht
  · cases ht
  · split at ht
    · cases ht
    · simp only [List.mem_singleton] at ht
      rw [ht]; unfold mapShadowToTailwind
      split_ifs <;> exact fun c hc => tokChar_of_mem_of_all _ (by decide) c hc

theorem convert_tokens_chars (n : FigmaNode) :
    ∀ t ∈ convertFigmaStylesToTailwind n, ∀ c ∈ t, tokChar c := by
  intro t ht
  unfold convertFigmaStylesToTailwind at ht
  simp only [List.mem_append] at ht
  rcases ht with ((((h | h) | h) | h) | h) | h
  · exact fillTokens_chars n t h
  · exact styleTokens_chars n t h
  · exact sizeTokens_chars n t h
  · exact radiusTokens_chars n t h
  · exact borderTokens_chars n t h
  · exact shadowTokens_chars n t h

/-!
Character sets of sanitised identifiers.
-/

theorem jsToLowerChar_alnum (c : Char) (h : c.isAlphanum = true) :
    (jsToLowerChar c).isAlphanum = true := by
  unfold jsToLowerChar
  split <;> first | decide | exact h

theorem jsToUpperChar_alnum (c : Char) (h : c.isAlphanum = true) :
    (jsToUpperChar c).isAlphanum = true := by
  unfold jsToUpperChar
  split <;> first | decide | exact h

theorem jsSplitSeps_ne_nil (isSep : Char → Bool) : ∀ s : Str, jsSplitSeps isSep s ≠ [] := by
  intro s
  induction s with
  | nil => simp [jsSplitSeps]
  | cons c0 t ih =>
    unfold jsSplitSeps
    rcases hsep : isSep c0
    · simp only [Bool.false_eq_true, if_false]
      rcases h : jsSplitSeps isSep t with _ | ⟨sg, r⟩
      · exact absurd h ih
      · simp
    · simp only [if_true]
      rcases t with _ | ⟨d, t2⟩
      · simp
      · rcases hd : isSep d
        · simp [hd]
        · simp only [hd, if_true]
          exact ih

theorem jsSplitSeps_seg_chars (isSep : Char → Bool) :
    ∀ (s : Str) (seg : Str), seg ∈ jsSplitSeps isSep s →
      ∀ c ∈ seg, c ∈ s ∧ isSep c = false := by
  intro s
  induction s with
  | nil =>
    intro seg hseg c hc
    simp only [jsSplitSeps, List.mem_singleton] at hseg
    rw [hseg] at hc
    cases hc
  | cons c0 t ih =>
    intro seg hseg c hc
    unfold jsSplitSeps at hseg
    rcases hsep : isSep c0 <;> rw [hsep] at hseg
    · simp only [Bool.false_eq_true, if_false] at hseg
      rcases h : jsSplitSeps isSep t with _ | ⟨sg, r⟩
      · exact absurd h (jsSplitSeps_ne_nil isSep t)
      · rw [h] at hseg
        rcases List.mem_cons.mp hseg with h2 | h2
        · rw [h2] at hc
          rcases List.mem_cons.mp hc with h3 | h3
          · rw [h3]
            exact ⟨List.mem_cons_self _ _, hsep⟩
          · have := ih sg (by rw [h]; exact List.mem_cons_self _ _) c h3
            exact ⟨List.mem_cons_of_mem _ this.1, this.2⟩
        · have := ih seg (by rw [h]; exact List.mem_cons_of_mem _ h2) c hc
          exact ⟨List.mem_cons_of_mem _ this.1, this.2⟩
    · simp only [if_true] at hseg
      have lift : seg ∈ jsSplitSeps isSep t → c ∈ c0 :: t ∧ isSep c = false := by
        intro hm
        have := ih seg hm c hc
        exact ⟨List.mem_cons_of_mem _ this.1, this.2⟩
      rcases t with _ | ⟨d, t2⟩
      · replace hseg : seg ∈ ([] : Str) :: jsSplitSeps isSep [] := hseg
        rcases List.mem_cons.mp hseg with h2 | h2
        · rw [h2] at hc; cases hc
        · exact lift h2
      · replace hseg : seg ∈ (if isSep d = true then jsSplitSeps isSep (d :: t2)
            else ([] : Str) :: jsSplitSeps isSep (d :: t2)) := hseg
        rcases hd : isSep d <;> rw [hd] at hseg
        · simp only [Bool.false_eq_true, if_false] at hseg
          rcases List.mem_cons.mp hseg with h2 | h2
          · rw [h2] at hc; cases hc
          · exact lift h2
        · simp only [if_true] at hseg
          exact lift hseg

theorem toPropName_alnum (name : Str) : ∀ c ∈ toPropName name, c.isAlphanum = true := by
  intro c hc
  unfold toPropName at hc
  rcases heq : jsSplitSeps isDashSep (sanitizeName name) with _ | ⟨p, ps⟩ <;> rw [heq] at hc
  · cases hc
  · have segOk : ∀ (seg : Str), seg ∈ jsSplitSeps isDashSep (sanitizeName name) →
        ∀ x ∈ seg, x.isAlphanum = true := by
      intro seg hs x hx
      have h2 := jsSplitSeps_seg_chars isDashSep (sanitizeName name) seg hs x hx
      have h3 := List.mem_filter.mp h2.1
      have h4 := h3.2
      have h5 := h2.2
      simp only [jsIsWordChar, isDashSep, jsIsSpace, Bool.or_eq_true,
        decide_eq_true_eq] at h4
      simp only [isDashSep, jsIsSpace, Bool.or_eq_false_iff,
        decide_eq_false_iff_not] at h5
      tauto
    rcases List.mem_append.mp hc with h | h
    · rcases List.mem_map.mp h with ⟨x, hx, hlow⟩
      rw [← hlow]
      exact jsToLowerChar_alnum x (segOk p (by rw [heq]; exact List.mem_cons_self _ _) x hx)
    · rcases List.mem_flatten.mp h with ⟨w, hw, hcw⟩
      rcases List.mem_map.mp hw with ⟨seg, hsg, hcap⟩
      have hsegOk := segOk seg (by rw [heq]; exact List.mem_cons_of_mem _ hsg)
      rw [← hcap] at hcw
      rcases seg with _ | ⟨s0, st⟩
      · cases hcw
      · rcases List.mem_cons.mp hcw with h2 | h2
        · rw [h2]
          exact jsToUpperChar_alnum s0 (hsegOk s0 (List.mem_cons_self _ _))
        · rcases List.mem_map.mp h2 with ⟨x, hx, hlow⟩
          rw [← hlow]
          exact jsToLowerChar_alnum x (hsegOk x (List.mem_cons_of_mem _ hx))

theorem alnum_of_mem_of_all (s : Str) (hs : (s.all Char.isAlphanum) = true) (c : Char)
    (hc : c ∈ s) : c.isAlphanum = true :=
  List.all_eq_true.mp hs c hc

theorem extractProps_names_alnum (n : FigmaNode) :
    ∀ p ∈ extractProps n, ∀ c ∈ p.name, c.isAlphanum = true := by
  intro p hp c hc
  unfold extractProps at hp
  simp only [List.mem_append] at hp
  rcases hp with (((h | h) | h) | h) | h
  · split at h
    · simp only [List.mem_singleton] at h
      rw [h] at hc
      simp only at hc
      split at hc
      · exact alnum_of_mem_of_all _ (by decide) c hc
      · exact toPropName_alnum _ c hc
    · cases h
  · split at h
    · simp only [List.mem_singleton] at h
      rw [h] at hc
      exact alnum_of_mem_of_all _ (by decide) c hc
    · cases h
  · split at h
    · simp only [List.mem_singleton] at h
      rw [h] at hc
      exact alnum_of_mem_of_all _ (by decide) c hc
    · cases h
  · split at h
    · simp only [List.mem_singleton] at h
      rw [h] at hc
      exact alnum_of_mem_of_all _ (by decide) c hc
    · cases h
  · simp only [List.mem_singleton] at h
    rw [h] at hc
    exact alnum_of_mem_of_all _ (by decide) c hc

theorem mem_of_head_eq {α : Type} {l : List α} {a : α} (h : l.head? = some a) : a ∈ l := by
  rcases l with _ | ⟨x, t⟩
  · cases h
  · simp only [List.head?_cons, Option.some.injEq] at h
    rw [← h]
    exact List.mem_cons_self _ _

theorem textBindName_alnum (n : FigmaNode) :
    ∀ c ∈ textBindName (extractProps n), c.isAlphanum = true := by
  intro c hc
  unfold textBindName at hc
  split at hc
  · exact alnum_of_mem_of_all _ (by decide) c hc
  · unfold firstPropName at hc
    rcases hh : (extractProps n).head? with _ | p <;> rw [hh] at hc
    · cases hc
    · exact extractProps_names_alnum n p (mem_of_head_eq hh) c hc

/-!
Properties of the literal-search and replace engines.
-/

theorem isPrefixOf_exists {p s : Str} (h : p.isPrefixOf s = true) : ∃ r, s = p ++ r := by
  induction p generalizing s with
  | nil => exact ⟨s, rfl⟩
  | cons x xs ih =>
    rcases s with _ | ⟨y, t⟩
    · cases h
    · replace h : (x == y && xs.isPrefixOf t) = true := h
      simp only [Bool.and_eq_true] at h
      rcases ih h.2 with ⟨r, hr⟩
      exact ⟨r, by rw [List.cons_append, ← hr, beq_iff_eq.mp h.1]⟩

theorem isPrefixOf_self_append (p x : Str) : p.isPrefixOf (p ++ x) = true := by
  induction p with
  | nil => simp [List.isPrefixOf]
  | cons a as ih =>
    show (a == a && as.isPrefixOf (as ++ x)) = true
    rw [beq_self_eq_true, ih]
    rfl

theorem splitOnLit_sound (pat : Str) :
    ∀ (s a b : Str), splitOnLit pat s = some (a, b) → s = a ++ pat ++ b := by
  intro s
  induction s with
  | nil =>
    intro a b h
    unfold splitOnLit at h
    split at h
    · simp only [Option.some.injEq, Prod.mk.injEq] at h
      rw [← h.1, ← h.2]
      have : pat = [] := List.isEmpty_iff.mp (by assumption)
      rw [this]
      rfl
    · cases h
  | cons c t ih =>
    intro a b h
    unfold splitOnLit at h
    split at h
    · simp only [Option.some.injEq, Prod.mk.injEq] at h
      rcases isPrefixOf_exists (by assumption : pat.isPrefixOf (c :: t) = true) with ⟨r, hr⟩
      rw [← h.1, ← h.2, List.nil_append, hr, List.drop_left]
    · rcases hs : splitOnLit pat t with _ | ⟨pre, post⟩ <;> rw [hs] at h
      · cases h
      · simp only [Option.some.injEq, Prod.mk.injEq] at h
        have := ih pre post hs
        rw [← h.1, ← h.2, this]
        simp [List.cons_append, List.append_assoc]

theorem splitOnLit_none_of_not_contains {pat s : Str} (h : containsLit pat s = false) :
    splitOnLit pat s = none := by
  rcases hs : splitOnLit pat s with _ | v
  · rfl
  · rw [containsLit, hs] at h
    cases h

theorem splitOnLit_self_append (pat x : Str) (hp : pat ≠ []) :
    splitOnLit pat (pat ++ x) = some ([], x) := by
  rcases pat with _ | ⟨c, t⟩
  · exact absurd rfl hp
  · show splitOnLit (c :: t) (c :: (t ++ x)) = some ([], x)
    unfold splitOnLit
    rw [if_pos (show (c :: t).isPrefixOf (c :: (t ++ x)) = true from
      isPrefixOf_self_append (c :: t) x)]
    simp only [Option.some.injEq, Prod.mk.injEq, true_and]
    exact List.drop_left (c :: t) x

theorem containsLit_self_append (pat x : Str) (hp : pat ≠ []) :
    containsLit pat (pat ++ x) = true := by
  rw [containsLit, splitOnLit_self_append pat x hp]
  rfl

theorem replaceTagAux_id (opn : Str) (stop : Char) (minOne : Bool) (repl : Str → Str)
    {s : Str} (h : containsLit opn s = false) :
    ∀ fuel, replaceTagAux opn stop minOne repl fuel s = s := by
  intro fuel
  cases fuel with
  | zero => rfl
  | succ f =>
    unfold replaceTagAux
    rw [splitOnLit_none_of_not_contains h]

theorem replaceTag_id (opn : Str) (stop : Char) (minOne : Bool) (repl : Str → Str)
    {s : Str} (h : containsLit opn s = false) :
    replaceTag opn stop minOne repl s = s :=
  replaceTagAux_id opn stop minOne repl h _

theorem replaceDivPairAux_id (repl : Str → Str → Str) {s : Str}
    (h : containsLit ("<div".data) s = false) :
    ∀ fuel, replaceDivPairAux repl fuel s = s := by
  intro fuel
  cases fuel with
  | zero => rfl
  | succ f =>
    unfold replaceDivPairAux
    rw [splitOnLit_none_of_not_contains h]

theorem replaceDivPair_id (repl : Str → Str → Str) {s : Str}
    (h : containsLit ("<div".data) s = false) :
    replaceDivPair repl s = s :=
  replaceDivPairAux_id repl h _

theorem dropWhile_cons_head {p : Char → Bool} {l t : Str} {x : Char}
    (h : l.dropWhile p = x :: t) : p x = false := by
  induction l with
  | nil => cases h
  | cons y ys ih =>
    rw [List.dropWhile_cons] at h
    by_cases hp : p y = true
    · rw [if_pos hp] at h
      exact ih h
    · rw [if_neg hp] at h
      injection h with h1 h2
      rw [← h1]
      exact Bool.eq_false_iff.mpr hp

theorem onClick_engine_id :
    ∀ (fuel : Nat) (s : Str),
      replaceTagAux ("onClick=\x7b".data) '\x7d' true
        (fun cap => "onClick=\x7b".data ++ cap ++ "\x7d".data) fuel s = s := by
  intro fuel
  induction fuel with
  | zero => intro s; rfl
  | succ f ih =>
    intro s
    unfold replaceTagAux
    rcases hs : splitOnLit ("onClick=\x7b".data) s with _ | ⟨pre, rest⟩
    · simp only [hs]
    · simp only [hs]
      have hsound := splitOnLit_sound _ _ _ _ hs
      rcases hd : rest.dropWhile (fun c => c ≠ '\x7d') with _ | ⟨x, t⟩
      · simp only [hd]
      · simp only [hd]
        have hx : x = '\x7d' := by
          have := dropWhile_cons_head hd
          simpa using this
        have hrest : rest.takeWhile (fun c => c ≠ '\x7d') ++ x :: t = rest := by
          rw [← hd]
          exact List.takeWhile_append_dropWhile _ _
        by_cases hcap : (rest.takeWhile (fun c => c ≠ '\x7d')).isEmpty = true
        · rw [if_pos (show (true && (rest.takeWhile (fun c => c ≠ '\x7d')).isEmpty) = true by
            rw [Bool.true_and]; exact hcap)]
          rw [ih rest, hsound]
        · rw [if_neg (show ¬(true && (rest.takeWhile (fun c => c ≠ '\x7d')).isEmpty) = true by
            rw [Bool.true_and]; exact hcap)]
          rw [ih t, hsound]
          conv_rhs => rw [← hrest]
          rw [hx]
          simp [List.append_assoc]

/-!
Occurrences of tag-opening literals: in a string whose only `<` characters
are at known positions, any occurrence of a pattern starting with `<` must
start at one of them.
-/

theorem containsLit_single_lt {pat t : Str} (hno : ∀ c ∈ t, ¬c = '<')
    (h : containsLit ('<' :: pat) ('<' :: t) = true) : ∃ v, pat ++ v = t := by
  rw [containsLit] at h
  rcases hs : splitOnLit ('<' :: pat) ('<' :: t) with _ | ⟨a, b⟩
  · rw [hs] at h; cases h
  · have hsound := splitOnLit_sound _ _ _ _ hs
    rcases a with _ | ⟨x, a2⟩
    · simp only [List.nil_append, List.cons_append] at hsound
      refine ⟨b, ?_⟩
      injection hsound with h1 h2
      exact h2.symm
    · simp only [List.cons_append] at hsound
      injection hsound with h1 h2
      exact absurd rfl (hno '<' (by rw [h2]; simp))

theorem lt_decomp_mid (t2 : Str) (h2 : ∀ c ∈ t2, ¬c = '<') :
    ∀ (t1 u w : Str), (∀ c ∈ t1, ¬c = '<') → u ++ '<' :: w = t1 ++ '<' :: t2 → w = t2 := by
  intro t1
  induction t1 with
  | nil =>
    intro u w h1 h
    rcases u with _ | ⟨y, u3⟩
    · simp only [List.nil_append, List.cons.injEq] at h
      exact h.2
    · simp only [List.cons_append, List.nil_append, List.cons.injEq] at h
      exact absurd rfl (h2 '<' (by rw [← h.2]; simp))
  | cons z t1x ih =>
    intro u w h1 h
    rcases u with _ | ⟨y, u3⟩
    · simp only [List.nil_append, List.cons_append, List.cons.injEq] at h
      exact absurd h.1.symm (h1 z (List.mem_cons_self _ _))
    · simp only [List.cons_append, List.cons.injEq] at h
      exact ih u3 w (fun c hc => h1 c (List.mem_cons_of_mem _ hc)) h.2

theorem containsLit_two_lt {pat t1 t2 : Str} (h1 : ∀ c ∈ t1, ¬c = '<')
    (h2 : ∀ c ∈ t2, ¬c = '<')
    (h : containsLit ('<' :: pat) ('<' :: (t1 ++ '<' :: t2)) = true) :
    (∃ v, pat ++ v = t1 ++ '<' :: t2) ∨ (∃ v, pat ++ v = t2) := by
  rw [containsLit] at h
  rcases hs : splitOnLit ('<' :: pat) ('<' :: (t1 ++ '<' :: t2)) with _ | ⟨a, b⟩
  · rw [hs] at h; cases h
  · have hsound := splitOnLit_sound _ _ _ _ hs
    rcases a with _ | ⟨x, a2⟩
    · left
      simp only [List.nil_append, List.cons_append, List.cons.injEq] at hsound
      exact ⟨b, hsound.2.symm⟩
    · right
      simp only [List.cons_append, List.cons.injEq] at hsound
      refine ⟨b, ?_⟩
      apply lt_decomp_mid t2 h2 t1 a2 (pat ++ b) h1
      rw [hsound.2]
      simp [List.append_assoc]

/-- The `onClick={...}` rewrite of pass 3 replaces each match with itself. -/
theorem onClick_replaceTag_id (s : Str) :
    replaceTag ("onClick=\x7b".data) '\x7d' true
      (fun cap => "onClick=\x7b".data ++ cap ++ "\x7d".data) s = s :=
  onClick_engine_id _ s

/-!
Claim C5 — heading promotion.
-/

/-- C5: any TEXT node with font size 32 turns the generic wrapper
`<div>Hello</div>` into `<h1>Hello</h1>` under the Accessibility
Rewriter (and the later passes leave the heading markup unchanged). -/
theorem C5_heading_promotion (n : FigmaNode) (st : FigmaTextStyle)
    (ht : n.type = "TEXT".data) (hst : n.style = some st) (hfs : st.fontSize = some 32) :
    enhanceWithAccessibility ("<div>Hello</div>".data) n = ("<h1>Hello</h1>".data) := by
  unfold enhanceWithAccessibility
  have hp1 : headingPass n ("<div>Hello</div>".data) = "<h1>Hello</h1>".data := by
    unfold headingPass determineLikelyHeadingLevel
    simp only [ht, hst, hfs]
    rw [if_pos (show (decide True || jsTruthyStr n.characters) = true by simp)]
    rw [if_pos (by decide : jqLe 16 (32 : JSNum) = true)]
    decide
  rw [hp1]
  have hp2 : imagePass n ("<h1>Hello</h1>".data) = "<h1>Hello</h1>".data := by
    unfold imagePass
    rcases hI : isLikelyImage n
    · simp only [Bool.false_eq_true, if_false]
    · simp only [if_true]
      rw [show containsLit ("<img".data) ("<h1>Hello</h1>".data) = false from by decide]
      rw [show containsLit ("<Image".data) ("<h1>Hello</h1>".data) = false from by decide]
      simp only [Bool.false_eq_true, if_false]
      exact replaceTag_id _ _ _ _ (by decide)
  rw [hp2]
  have hp3 : buttonPass n ("<h1>Hello</h1>".data) = "<h1>Hello</h1>".data := by
    unfold buttonPass
    rcases hB : isLikelyButton n
    · simp only [Bool.false_eq_true, if_false]
    · simp only [if_true]
      rw [show containsLit ("<button".data) ("<h1>Hello</h1>".data) = false from by decide]
      simp only [Bool.false_eq_true, if_false]
      decide
  rw [hp3]
  unfold inputPass
  rcases hF : isLikelyInputField n
  · simp only [Bool.false_eq_true, if_false]
  · simp only [if_true]
    rw [show containsLit ("<input".data) ("<h1>Hello</h1>".data) = false from by decide]
    simp only [Bool.false_eq_true, if_false]
    exact replaceDivPair_id _ (by decide)

/-- C5 witness: the promotion at a concrete TEXT node with font size 32. -/
theorem C5_heading_promotion_witness :
    textNode32.type = "TEXT".data ∧
    textNode32.style = some ⟨some 32, none, none, none⟩ ∧
    enhanceWithAccessibility ("<div>Hello</div>".data) textNode32 = ("<h1>Hello</h1>".data) :=
  ⟨rfl, rfl, C5_heading_promotion textNode32 ⟨some 32, none, none, none⟩ rfl rfl rfl⟩

/-!
Claim C9 — the Accessibility Rewriter is an identity on the Translator's
own TEXT-node markup, which is a paragraph, never a heading.
-/

theorem no_lt_of_mem_of_all (s : Str)
    (h : s.all (fun c => !(c == '<')) = true) : ∀ c ∈ s, ¬c = '<' := by
  intro c hc hlt
  have hx := List.all_eq_true.mp h c hc
  rw [hlt] at hx
  exact absurd hx (by decide)

theorem tokChar_ne_lt (c : Char) (h : tokChar c) : ¬c = '<' := by
  intro hlt
  rcases h with h | h
  · rw [hlt] at h; exact absurd h (by decide)
  · rw [hlt] at h; exact absurd h (by decide)

theorem alnum_ne_lt (c : Char) (h : c.isAlphanum = true) : ¬c = '<' := by
  intro hlt
  rw [hlt] at h
  exact absurd h (by decide)

theorem mem_intercalate (sep : Str) :
    ∀ (toks : List Str) (c : Char), c ∈ List.intercalate sep toks →
      (∃ t ∈ toks, c ∈ t) ∨ c ∈ sep := by
  intro toks
  induction toks with
  | nil =>
    intro c hc
    simp [List.intercalate, List.intersperse] at hc
  | cons x xs ih =>
    intro c hc
    rcases xs with _ | ⟨y, ys⟩
    · left
      refine ⟨x, List.mem_cons_self _ _, ?_⟩
      simpa [List.intercalate, List.intersperse] using hc
    · rw [show List.intercalate sep (x :: y :: ys) = x ++ sep ++ List.intercalate sep (y :: ys)
        from by simp [List.intercalate, List.intersperse]] at hc
      simp only [List.mem_append] at hc
      rcases hc with (hx | hsep) | hrest
      · exact Or.inl ⟨x, List.mem_cons_self _ _, hx⟩
      · exact Or.inr hsep
      · rcases ih c hrest with ⟨t, htm, hct⟩ | hs
        · exact Or.inl ⟨t, List.mem_cons_of_mem _ htm, hct⟩
        · exact Or.inr hs

theorem text_t1_no_lt (n : FigmaNode) :
    ∀ c ∈ ('p' :: (" className=\"".data ++
        (List.intercalate (" ".data) (convertFigmaStylesToTailwind n) ++
          ("\">\x7b".data ++ (textBindName (extractProps n) ++ ['\x7d']))))), ¬c = '<' := by
  intro c hc
  rcases List.mem_cons.mp hc with rfl | hc2
  · decide
  · simp only [List.mem_append] at hc2
    rcases hc2 with hc | hc | hc | hc | hc
    · exact no_lt_of_mem_of_all (" className=\"".data) (by decide) c hc
    · rcases mem_intercalate (" ".data) _ c hc with ⟨t, htm, hct⟩ | hs
      · exact tokChar_ne_lt c (convert_tokens_chars n t htm c hct)
      · exact no_lt_of_mem_of_all (" ".data) (by decide) c hs
    · exact no_lt_of_mem_of_all ("\">\x7b".data) (by decide) c hc
    · exact alnum_ne_lt c (textBindName_alnum n c hc)
    · exact no_lt_of_mem_of_all (['\x7d']) (by decide) c hc

theorem text_jsx_decomp (n : FigmaNode) (ht : n.type = "TEXT".data) :
    (figmaNodeToJSX n 0).jsx =
      '<' :: (('p' :: (" className=\"".data ++
          (List.intercalate (" ".data) (convertFigmaStylesToTailwind n) ++
            ("\">\x7b".data ++ (textBindName (extractProps n) ++ ['\x7d']))))) ++
        '<' :: ('/' :: "p>".data)) := by
  rw [figmaNodeToJSX_eq]
  unfold jsxStep
  rw [if_pos ht]
  show "<p className=\"".data ++ List.intercalate (" ".data) (convertFigmaStylesToTailwind n)
      ++ "\">\x7b".data ++ textBindName (extractProps n) ++ "\x7d</p>".data = _
  rw [show ("<p className=\"".data : Str) = '<' :: 'p' :: " className=\"".data from rfl]
  rw [show ("\x7d</p>".data : Str) = '\x7d' :: '<' :: '/' :: "p>".data from rfl]
  simp [List.append_assoc]

theorem no_tag_two_lt {p0 c1 c2 : Char} {prest t1rest t2rest : Str}
    (h1 : ¬p0 = c1) (h2 : ¬p0 = c2)
    (ht1 : ∀ c ∈ c1 :: t1rest, ¬c = '<') (ht2 : ∀ c ∈ c2 :: t2rest, ¬c = '<') :
    containsLit ('<' :: p0 :: prest) ('<' :: ((c1 :: t1rest) ++ '<' :: (c2 :: t2rest))) = false := by
  by_contra hc
  rw [Bool.not_eq_false] at hc
  rcases containsLit_two_lt ht1 ht2 hc with ⟨v, hv⟩ | ⟨v, hv⟩
  · simp only [List.cons_append, List.cons.injEq] at hv
    exact h1 hv.1
  · simp only [List.cons_append, List.cons.injEq] at hv
    exact h2 hv.1

/-- C9: for every TEXT node the Translator emits a `<p>` wrapper, and all
four passes of the Accessibility Rewriter leave that markup unchanged; in
particular the enhanced markup contains no heading tag opener `<h`. -/
theorem C9_text_no_heading (n : FigmaNode) (ht : n.type = "TEXT".data) :
    enhanceWithAccessibility (figmaNodeToJSX n 0).jsx n = (figmaNodeToJSX n 0).jsx ∧
    containsLit ("<h".data) (enhanceWithAccessibility (figmaNodeToJSX n 0).jsx n) = false := by
  have hd := text_jsx_decomp n ht
  have ht1 := text_t1_no_lt n
  have ht2 : ∀ c ∈ ('/' :: "p>".data), ¬c = '<' := no_lt_of_mem_of_all _ (by decide)
  have hdiv : containsLit ("<div".data) (figmaNodeToJSX n 0).jsx = false := by
    rw [hd]; exact no_tag_two_lt (by decide) (by decide) ht1 ht2
  have himg : containsLit ("<img".data) (figmaNodeToJSX n 0).jsx = false := by
    rw [hd]; exact no_tag_two_lt (by decide) (by decide) ht1 ht2
  have hImage : containsLit ("<Image".data) (figmaNodeToJSX n 0).jsx = false := by
    rw [hd]; exact no_tag_two_lt (by decide) (by decide) ht1 ht2
  have hbutton : containsLit ("<button".data) (figmaNodeToJSX n 0).jsx = false := by
    rw [hd]; exact no_tag_two_lt (by decide) (by decide) ht1 ht2
  have hinput : containsLit ("<input".data) (figmaNodeToJSX n 0).jsx = false := by
    rw [hd]; exact no_tag_two_lt (by decide) (by decide) ht1 ht2
  have hh : containsLit ("<h".data) (figmaNodeToJSX n 0).jsx = false := by
    rw [hd]; exact no_tag_two_lt (by decide) (by decide) ht1 ht2
  have hpass1 : headingPass n (figmaNodeToJSX n 0).jsx = (figmaNodeToJSX n 0).jsx := by
    unfold headingPass
    split
    · split
      · exact replaceDivPair_id _ hdiv
      · rfl
    · rfl
  have hpass2 : imagePass n (figmaNodeToJSX n 0).jsx = (figmaNodeToJSX n 0).jsx := by
    unfold imagePass
    split
    · rw [himg, hImage]
      simp only [Bool.false_eq_true, if_false]
      exact replaceTag_id _ _ _ _ hdiv
    · rfl
  have hpass3 : buttonPass n (figmaNodeToJSX n 0).jsx = (figmaNodeToJSX n 0).jsx := by
    unfold buttonPass
    split
    · rw [hbutton]
      simp only [Bool.false_eq_true, if_false]
      simp only [replaceTag_id _ _ _ _ hdiv]
      exact onClick_replaceTag_id _
    · rfl
  have hpass4 : inputPass n (figmaNodeToJSX n 0).jsx = (figmaNodeToJSX n 0).jsx := by
    unfold inputPass
    split
    · rw [hinput]
      simp only [Bool.false_eq_true, if_false]
      exact replaceDivPair_id _ hdiv
    · rfl
  have henh : enhanceWithAccessibility (figmaNodeToJSX n 0).jsx n = (figmaNodeToJSX n 0).jsx := by
    unfold enhanceWithAccessibility
    rw [hpass1, hpass2, hpass3, hpass4]
  exact ⟨henh, by rw [henh]; exact hh⟩

/-- C9 witness: at the concrete TEXT node `labelChild` the pipeline fixes
the markup and it has no heading. -/
theorem C9_text_no_heading_witness :
    enhanceWithAccessibility (figmaNodeToJSX labelChild 0).jsx labelChild
        = (figmaNodeToJSX labelChild 0).jsx ∧
    containsLit ("<h".data)
        (enhanceWithAccessibility (figmaNodeToJSX labelChild 0).jsx labelChild) = false :=
  C9_text_no_heading labelChild rfl

/-!
Claim C10 — the Translator's IMAGE markup already carries `alt="name"`,
and the image pass of the Accessibility Rewriter appends a second alt
attribute to the same element.
-/

theorem ne_char_of_mem_of_all (s : Str) (x : Char)
    (h : s.all (fun c => !(c == x)) = true) : ∀ c ∈ s, ¬c = x := by
  intro c hc he
  have hx := List.all_eq_true.mp h c hc
  rw [he] at hx
  simp at hx

theorem tokChar_ne_gt (c : Char) (h : tokChar c) : ¬c = '>' := by
  intro he
  rcases h with h | h
  · rw [he] at h; exact absurd h (by decide)
  · rw [he] at h; exact absurd h (by decide)

theorem nameChar_ne_lt (c : Char)
    (h : c.isAlphanum = true ∨ c = ' ' ∨ c = '-') : ¬c = '<' := by
  intro he
  rcases h with h1 | h1 | h1 <;> (rw [he] at h1; exact absurd h1 (by decide))

theorem nameChar_ne_gt (c : Char)
    (h : c.isAlphanum = true ∨ c = ' ' ∨ c = '-') : ¬c = '>' := by
  intro he
  rcases h with h1 | h1 | h1 <;> (rw [he] at h1; exact absurd h1 (by decide))

theorem jsLower_chars (s : Str)
    (h : ∀ c ∈ s, c.isAlphanum = true ∨ c = ' ' ∨ c = '-') :
    ∀ c ∈ jsLower s, c.isAlphanum = true ∨ c = ' ' ∨ c = '-' := by
  intro c hc
  rcases List.mem_map.mp hc with ⟨a, ha, rfl⟩
  rcases h a ha with h1 | h1 | h1
  · exact Or.inl (jsToLowerChar_alnum a h1)
  · rw [h1]; decide
  · rw [h1]; decide

theorem collapseWsToDash_chars :
    ∀ (s : Str), (∀ c ∈ s, c.isAlphanum = true ∨ c = ' ' ∨ c = '-') →
      ∀ c ∈ collapseWsToDash s, c.isAlphanum = true ∨ c = '-' := by
  intro s
  induction s with
  | nil => intro _ c hc; cases hc
  | cons a t ih =>
    intro h c hc
    rcases t with _ | ⟨d, t2⟩
    · rw [collapseWsToDash] at hc
      by_cases hsp : jsIsSpace a = true
      · rw [if_pos hsp] at hc
        rw [List.mem_singleton.mp hc]
        exact Or.inr rfl
      · rw [if_neg hsp] at hc
        rw [List.mem_singleton.mp hc]
        rcases h a (List.mem_cons_self _ _) with h1 | h1 | h1
        · exact Or.inl h1
        · exact absurd (show jsIsSpace a = true by rw [h1]; decide) hsp
        · exact Or.inr h1
    · rw [collapseWsToDash] at hc
      by_cases hsp : jsIsSpace a = true
      · rw [if_pos hsp] at hc
        by_cases hspd : jsIsSpace d = true
        · rw [if_pos hspd] at hc
          exact ih (fun x hx => h x (List.mem_cons_of_mem _ hx)) c hc
        · rw [if_neg hspd] at hc
          rcases List.mem_cons.mp hc with rfl | hc2
          · exact Or.inr rfl
          · exact ih (fun x hx => h x (List.mem_cons_of_mem _ hx)) c hc2
      · rw [if_neg hsp] at hc
        rcases List.mem_cons.mp hc with rfl | hc2
        · rcases h c (List.mem_cons_self _ _) with h1 | h1 | h1
          · exact Or.inl h1
          · exact absurd (show jsIsSpace c = true by rw [h1]; decide) hsp
          · exact Or.inr h1
        · exact ih (fun x hx => h x (List.mem_cons_of_mem _ hx)) c hc2

theorem nameDashLower_chars (name : Str)
    (hname : ∀ c ∈ name, c.isAlphanum = true ∨ c = ' ' ∨ c = '-') :
    ∀ c ∈ nameDashLower name, c.isAlphanum = true ∨ c = '-' :=
  collapseWsToDash_chars (jsLower name) (jsLower_chars name hname)

theorem ciPrefixDrop_drop (a s r : Str) (h : ciPrefixDrop a s = some r) :
    r = s.drop a.length := by
  unfold ciPrefixDrop at h
  split at h
  · injection h with h1
    exact h1.symm
  · cases h

theorem firstM_ciPrefixDrop_drop :
    ∀ (alts : List Str) (s r : Str),
      alts.firstM (fun a => ciPrefixDrop a s) = some r → ∃ k, r = s.drop k := by
  intro alts
  induction alts with
  | nil => intro s r h; cases h
  | cons a as ih =>
    intro s r h
    replace h : (ciPrefixDrop a s <|> as.firstM (fun a => ciPrefixDrop a s)) = some r := h
    rcases hca : ciPrefixDrop a s with _ | r1
    · rw [hca] at h
      simp only [Option.none_orElse] at h
      exact ih s r h
    · rw [hca] at h
      simp only [Option.some_orElse] at h
      injection h with h1
      exact ⟨a.length, by rw [← h1]; exact ciPrefixDrop_drop a s r1 hca⟩

theorem stripAltStart_subset (s : Str) : ∀ c ∈ stripAltStart s, c ∈ s := by
  intro c hc
  unfold stripAltStart at hc
  rcases hf : altFillers.firstM (fun a => ciPrefixDrop a s) with _ | rest
  · rw [hf] at hc
    exact hc
  · rw [hf] at hc
    rcases firstM_ciPrefixDrop_drop altFillers s rest hf with ⟨k, hk⟩
    rw [hk] at hc
    exact List.drop_subset k s ((List.dropWhile_sublist _).subset hc)

theorem stripAltEnd_subset : ∀ (s : Str), ∀ c ∈ stripAltEnd s, c ∈ s := by
  intro s
  induction s with
  | nil => intro c hc; cases hc
  | cons a t ih =>
    intro c hc
    rw [stripAltEnd] at hc
    split at hc
    · cases hc
    · rcases List.mem_cons.mp hc with rfl | hc2
      · exact List.mem_cons_self _ _
      · exact List.mem_cons_of_mem _ (ih c hc2)

theorem generateAltText_chars (n : FigmaNode)
    (hname : ∀ c ∈ n.name, c.isAlphanum = true ∨ c = ' ' ∨ c = '-') :
    ∀ c ∈ generateAltText n, c.isAlphanum = true ∨ c = ' ' ∨ c = '-' := by
  intro c hc
  replace hc : c ∈ (if stripAltEnd (stripAltStart n.name) = [] ∨
      altFillers.any (fun a => jsLower (stripAltEnd (stripAltStart n.name)) = a) then
      "Image".data else stripAltEnd (stripAltStart n.name)) := hc
  split at hc
  · exact Or.inl (alnum_of_mem_of_all _ (by decide) c hc)
  · exact hname c (stripAltStart_subset n.name c (stripAltEnd_subset _ c hc))

theorem takeWhile_ne_stop_append (stop : Char) :
    ∀ (M : Str), (∀ c ∈ M, ¬c = stop) →
      (M ++ [stop]).takeWhile (fun c => c ≠ stop) = M ∧
      (M ++ [stop]).dropWhile (fun c => c ≠ stop) = [stop] := by
  intro M
  induction M with
  | nil =>
    intro _
    constructor <;> simp [List.takeWhile_cons, List.dropWhile_cons]
  | cons a t ih =>
    intro hM
    have ha : ¬a = stop := hM a (List.mem_cons_self _ _)
    have iht := ih (fun c hc => hM c (List.mem_cons_of_mem _ hc))
    constructor
    · rw [List.cons_append, List.takeWhile_cons, if_pos (decide_eq_true ha), iht.1]
    · rw [List.cons_append, List.dropWhile_cons, if_pos (decide_eq_true ha), iht.2]

theorem replaceTagAux_nil (opn : Str) (stop : Char) (minOne : Bool)
    (repl : Str → Str) (hopn : ¬opn = []) :
    ∀ f, replaceTagAux opn stop minOne repl f [] = [] := by
  intro f
  cases f with
  | zero => rfl
  | succ g =>
    rw [replaceTagAux]
    rcases opn with _ | ⟨c, t⟩
    · exact absurd rfl hopn
    · rfl

theorem replaceTag_self_append (opn : Str) (stop : Char) (repl : Str → Str)
    (M : Str) (hopn : ¬opn = []) (hM : ∀ c ∈ M, ¬c = stop) :
    replaceTag opn stop false repl (opn ++ (M ++ [stop])) = repl M := by
  have htd := takeWhile_ne_stop_append stop M hM
  unfold replaceTag
  rw [replaceTagAux]
  rw [splitOnLit_self_append opn (M ++ [stop]) hopn]
  simp only [htd.1, htd.2]
  simp only [Bool.false_and, Bool.false_eq_true, if_false]
  rw [replaceTagAux_nil opn stop false repl hopn]
  simp

theorem no_tag_one_lt {p0 p1 c0 c1 : Char} {prest trest : Str}
    (hne : ¬(p0 = c0 ∧ p1 = c1)) (ht : ∀ c ∈ c0 :: c1 :: trest, ¬c = '<') :
    containsLit ('<' :: p0 :: p1 :: prest) ('<' :: c0 :: c1 :: trest) = false := by
  by_contra hc
  rw [Bool.not_eq_false] at hc
  rcases containsLit_single_lt ht hc with ⟨v, hv⟩
  simp only [List.cons_append, List.cons.injEq] at hv
  exact hne ⟨hv.1, hv.2.1⟩

theorem image_jsx_decomp (n : FigmaNode) (ht : n.type = "IMAGE".data) :
    (figmaNodeToJSX n 0).jsx =
      "<img \n  src=\"".data ++ (nameDashLower n.name ++ (".png\" \n  className=\"".data ++
        (List.intercalate (" ".data) (convertFigmaStylesToTailwind n) ++
          ("\" \n  alt=\"".data ++ (n.name ++ "\"\n/>".data))))) := by
  rw [figmaNodeToJSX_eq]
  unfold jsxStep
  rw [ht]
  simp [List.append_assoc,
    show isShapeType (['I', 'M', 'A', 'G', 'E'] : Str) = false from by decide,
    show isContainerType (['I', 'M', 'A', 'G', 'E'] : Str) = false from by decide]

theorem imgCap_chars (n : FigmaNode)
    (hname : ∀ c ∈ n.name, c.isAlphanum = true ∨ c = ' ' ∨ c = '-') :
    ∀ c ∈ (" \n  src=\"".data ++ (nameDashLower n.name ++ (".png\" \n  className=\"".data ++
      (List.intercalate (" ".data) (convertFigmaStylesToTailwind n) ++
        ("\" \n  alt=\"".data ++ (n.name ++ "\"\n/".data)))))), ¬c = '<' ∧ ¬c = '>' := by
  intro c hc
  simp only [List.mem_append] at hc
  rcases hc with hc | hc | hc | hc | hc | hc | hc
  · exact ⟨ne_char_of_mem_of_all (" \n  src=\"".data) '<' (by decide) c hc,
      ne_char_of_mem_of_all (" \n  src=\"".data) '>' (by decide) c hc⟩
  · rcases nameDashLower_chars n.name hname c hc with h2 | h2
    · exact ⟨nameChar_ne_lt c (Or.inl h2), nameChar_ne_gt c (Or.inl h2)⟩
    · exact ⟨nameChar_ne_lt c (Or.inr (Or.inr h2)), nameChar_ne_gt c (Or.inr (Or.inr h2))⟩
  · exact ⟨ne_char_of_mem_of_all (".png\" \n  className=\"".data) '<' (by decide) c hc,
      ne_char_of_mem_of_all (".png\" \n  className=\"".data) '>' (by decide) c hc⟩
  · rcases mem_intercalate (" ".data) _ c hc with ⟨t, htm, hct⟩ | hs
    · exact ⟨tokChar_ne_lt c (convert_tokens_chars n t htm c hct),
        tokChar_ne_gt c (convert_tokens_chars n t htm c hct)⟩
    · exact ⟨ne_char_of_mem_of_all (" ".data) '<' (by decide) c hs,
        ne_char_of_mem_of_all (" ".data) '>' (by decide) c hs⟩
  · exact ⟨ne_char_of_mem_of_all ("\" \n  alt=\"".data) '<' (by decide) c hc,
      ne_char_of_mem_of_all ("\" \n  alt=\"".data) '>' (by decide) c hc⟩
  · exact ⟨nameChar_ne_lt c (hname c hc), nameChar_ne_gt c (hname c hc)⟩
  · exact ⟨ne_char_of_mem_of_all ("\"\n/".data) '<' (by decide) c hc,
      ne_char_of_mem_of_all ("\"\n/".data) '>' (by decide) c hc⟩

/-- C10: for every IMAGE node whose name uses alphanumerics, spaces and
dashes, the Translator emits an image element whose alt attribute is the
raw node name, and the Accessibility Rewriter's image pass appends a
second alt attribute (the filler-stripped alt text) to the same element,
the heading, button and input passes changing nothing. -/
theorem C10_image_double_alt (n : FigmaNode) (ht : n.type = "IMAGE".data)
    (hname : ∀ c ∈ n.name, c.isAlphanum = true ∨ c = ' ' ∨ c = '-') :
    (figmaNodeToJSX n 0).jsx =
      "<img \n  src=\"".data ++ (nameDashLower n.name ++ (".png\" \n  className=\"".data ++
        (List.intercalate (" ".data) (convertFigmaStylesToTailwind n) ++
          ("\" \n  alt=\"".data ++ (n.name ++ "\"\n/>".data))))) ∧
    enhanceWithAccessibility (figmaNodeToJSX n 0).jsx n =
      ("<img".data ++ ((" \n  src=\"".data ++ (nameDashLower n.name ++ (".png\" \n  className=\"".data ++
      (List.intercalate (" ".data) (convertFigmaStylesToTailwind n) ++
        ("\" \n  alt=\"".data ++ (n.name ++ "\"\n/".data)))))) ++
      (" alt=\"".data ++ (generateAltText n ++ "\">".data)))) := by
  have hd := image_jsx_decomp n ht
  have hcap := imgCap_chars n hname
  have hjsx2 : (figmaNodeToJSX n 0).jsx = "<img".data ++ ((" \n  src=\"".data ++ (nameDashLower n.name ++ (".png\" \n  className=\"".data ++
      (List.intercalate (" ".data) (convertFigmaStylesToTailwind n) ++
        ("\" \n  alt=\"".data ++ (n.name ++ "\"\n/".data)))))) ++ ['>']) := by
    rw [hd]
    rw [show ("<img \n  src=\"".data : Str) = "<img".data ++ " \n  src=\"".data from rfl]
    rw [show ("\"\n/>".data : Str) = "\"\n/".data ++ ['>'] from rfl]
    simp [List.append_assoc]
  have htail1 : ∀ c ∈ ('i' :: 'm' :: 'g' :: ((" \n  src=\"".data ++ (nameDashLower n.name ++ (".png\" \n  className=\"".data ++
      (List.intercalate (" ".data) (convertFigmaStylesToTailwind n) ++
        ("\" \n  alt=\"".data ++ (n.name ++ "\"\n/".data)))))) ++ ['>'])), ¬c = '<' := by
    intro c hc
    rcases List.mem_cons.mp hc with rfl | hc2
    · decide
    · rcases List.mem_cons.mp hc2 with rfl | hc3
      · decide
      · rcases List.mem_cons.mp hc3 with rfl | hc4
        · decide
        · rcases List.mem_append.mp hc4 with hc5 | hc5
          · exact (hcap c hc5).1
          · rw [List.mem_singleton.mp hc5]; decide
  have hdiv1 : containsLit ("<div".data) (figmaNodeToJSX n 0).jsx = false := by
    rw [hjsx2]
    exact no_tag_one_lt (by decide) htail1
  have hpass1 : headingPass n (figmaNodeToJSX n 0).jsx = (figmaNodeToJSX n 0).jsx := by
    unfold headingPass
    split
    · split
      · exact replaceDivPair_id _ hdiv1
      · rfl
    · rfl
  have himgLikely : isLikelyImage n = true := by
    unfold isLikelyImage
    rw [ht, if_pos rfl]
  have himgTrue : containsLit ("<img".data) (figmaNodeToJSX n 0).jsx = true := by
    rw [hjsx2]
    exact containsLit_self_append ("<img".data) _ (by decide)
  have hpass2 : imagePass n (figmaNodeToJSX n 0).jsx =
      ("<img".data ++ ((" \n  src=\"".data ++ (nameDashLower n.name ++ (".png\" \n  className=\"".data ++
      (List.intercalate (" ".data) (convertFigmaStylesToTailwind n) ++
        ("\" \n  alt=\"".data ++ (n.name ++ "\"\n/".data)))))) ++
      (" alt=\"".data ++ (generateAltText n ++ "\">".data)))) := by
    unfold imagePass
    rw [if_pos himgLikely, if_pos himgTrue]
    rw [hjsx2]
    rw [replaceTag_self_append ("<img".data) '>' _ (" \n  src=\"".data ++ (nameDashLower n.name ++ (".png\" \n  className=\"".data ++
      (List.intercalate (" ".data) (convertFigmaStylesToTailwind n) ++
        ("\" \n  alt=\"".data ++ (n.name ++ "\"\n/".data)))))) (by decide)
      (fun c hc => (hcap c hc).2)]
    simp [List.append_assoc]
  have hs2tail : ∀ c ∈ ('i' :: 'm' :: 'g' :: ((" \n  src=\"".data ++ (nameDashLower n.name ++ (".png\" \n  className=\"".data ++
      (List.intercalate (" ".data) (convertFigmaStylesToTailwind n) ++
        ("\" \n  alt=\"".data ++ (n.name ++ "\"\n/".data)))))) ++
      (" alt=\"".data ++ (generateAltText n ++ "\">".data)))), ¬c = '<' := by
    intro c hc
    rcases List.mem_cons.mp hc with rfl | hc2
    · decide
    · rcases List.mem_cons.mp hc2 with rfl | hc3
      · decide
      · rcases List.mem_cons.mp hc3 with rfl | hc4
        · decide
        · rcases List.mem_append.mp hc4 with hc5 | hc5
          · exact (hcap c hc5).1
          · rcases List.mem_append.mp hc5 with hc6 | hc6
            · exact ne_char_of_mem_of_all (" alt=\"".data) '<' (by decide) c hc6
            · rcases List.mem_append.mp hc6 with hc7 | hc7
              · exact nameChar_ne_lt c (generateAltText_chars n hname c hc7)
              · exact ne_char_of_mem_of_all ("\">".data) '<' (by decide) c hc7
  have hS2div : containsLit ("<div".data) ("<img".data ++ ((" \n  src=\"".data ++ (nameDashLower n.name ++ (".png\" \n  className=\"".data ++
      (List.intercalate (" ".data) (convertFigmaStylesToTailwind n) ++
        ("\" \n  alt=\"".data ++ (n.name ++ "\"\n/".data)))))) ++
      (" alt=\"".data ++ (generateAltText n ++ "\">".data)))) = false :=
    no_tag_one_lt (by decide) hs2tail
  have hS2button : containsLit ("<button".data) ("<img".data ++ ((" \n  src=\"".data ++ (nameDashLower n.name ++ (".png\" \n  className=\"".data ++
      (List.intercalate (" ".data) (convertFigmaStylesToTailwind n) ++
        ("\" \n  alt=\"".data ++ (n.name ++ "\"\n/".data)))))) ++
      (" alt=\"".data ++ (generateAltText n ++ "\">".data)))) = false :=
    no_tag_one_lt (by decide) hs2tail
  have hS2input : containsLit ("<input".data) ("<img".data ++ ((" \n  src=\"".data ++ (nameDashLower n.name ++ (".png\" \n  className=\"".data ++
      (List.intercalate (" ".data) (convertFigmaStylesToTailwind n) ++
        ("\" \n  alt=\"".data ++ (n.name ++ "\"\n/".data)))))) ++
      (" alt=\"".data ++ (generateAltText n ++ "\">".data)))) = false :=
    no_tag_one_lt (by decide) hs2tail
  have hpass3 : buttonPass n ("<img".data ++ ((" \n  src=\"".data ++ (nameDashLower n.name ++ (".png\" \n  className=\"".data ++
      (List.intercalate (" ".data) (convertFigmaStylesToTailwind n) ++
        ("\" \n  alt=\"".data ++ (n.name ++ "\"\n/".data)))))) ++
      (" alt=\"".data ++ (generateAltText n ++ "\">".data)))) = ("<img".data ++ ((" \n  src=\"".data ++ (nameDashLower n.name ++ (".png\" \n  className=\"".data ++
      (List.intercalate (" ".data) (convertFigmaStylesToTailwind n) ++
        ("\" \n  alt=\"".data ++ (n.name ++ "\"\n/".data)))))) ++
      (" alt=\"".data ++ (generateAltText n ++ "\">".data)))) := by
    unfold buttonPass
    split
    · rw [hS2button]
      simp only [Bool.false_eq_true, if_false]
      simp only [replaceTag_id _ _ _ _ hS2div]
      exact onClick_replaceTag_id _
    · rfl
  have hpass4 : inputPass n ("<img".data ++ ((" \n  src=\"".data ++ (nameDashLower n.name ++ (".png\" \n  className=\"".data ++
      (List.intercalate (" ".data) (convertFigmaStylesToTailwind n) ++
        ("\" \n  alt=\"".data ++ (n.name ++ "\"\n/".data)))))) ++
      (" alt=\"".data ++ (generateAltText n ++ "\">".data)))) = ("<img".data ++ ((" \n  src=\"".data ++ (nameDashLower n.name ++ (".png\" \n  className=\"".data ++
      (List.intercalate (" ".data) (convertFigmaStylesToTailwind n) ++
        ("\" \n  alt=\"".data ++ (n.name ++ "\"\n/".data)))))) ++
      (" alt=\"".data ++ (generateAltText n ++ "\">".data)))) := by
    unfold inputPass
    split
    · rw [hS2input]
      simp only [Bool.false_eq_true, if_false]
      exact replaceDivPair_id _ hS2div
    · rfl
  refine ⟨hd, ?_⟩
  unfold enhanceWithAccessibility
  rw [hpass1, hpass2, hpass3, hpass4]

/-- C10 witness: at the concrete IMAGE node `imgNode` (named
"Hero Image") the translated markup has one alt attribute and the
enhanced markup has two. -/
theorem C10_image_double_alt_witness :
    ((figmaNodeToJSX imgNode 0).jsx =
      "<img \n  src=\"".data ++ (nameDashLower imgNode.name ++ (".png\" \n  className=\"".data ++
        (List.intercalate (" ".data) (convertFigmaStylesToTailwind imgNode) ++
          ("\" \n  alt=\"".data ++ (imgNode.name ++ "\"\n/>".data))))) ∧
    enhanceWithAccessibility (figmaNodeToJSX imgNode 0).jsx imgNode =
      ("<img".data ++ ((" \n  src=\"".data ++ (nameDashLower imgNode.name ++ (".png\" \n  className=\"".data ++
      (List.intercalate (" ".data) (convertFigmaStylesToTailwind imgNode) ++
        ("\" \n  alt=\"".data ++ (imgNode.name ++ "\"\n/".data)))))) ++
      (" alt=\"".data ++ (generateAltText imgNode ++ "\">".data))))) ∧
    countLit ("alt=\"".data) (figmaNodeToJSX imgNode 0).jsx = 1 ∧
    countLit ("alt=\"".data)
      (enhanceWithAccessibility (figmaNodeToJSX imgNode 0).jsx imgNode) = 2 :=
  ⟨C10_image_double_alt imgNode rfl (by decide), by decide, by decide⟩
